import Mathlib

/-!
# TheatreScraper — verification of the extraction and change-detection core

Shallow embedding of the core of the TheatreScraper repository:

* the snapshot differ `compare_snapshots` (`src/data_storage.py`),
* the date text interpreter `parse_date_string` (`src/scraper_static.py`),
* the site extractors for Donmar Warehouse, Bridge Theatre and Hampstead
  Theatre together with the extraction dispatcher `parse_theater_page`
  (`src/scraper_static.py`).

Python strings are modelled as Lean `String`s (with the character-level
operations spelled out on `List Char`); `datetime` values are modelled by
their calendar components (`Date`); the external `dateutil` parser is a
parameter of the embedding (`strictParse` for the day-first numeric branch,
`fuzzyParse` for the fuzzy branch); BeautifulSoup documents are modelled by
an HTML node tree.  The non-deterministic `last_updated` timestamp of
`TheaterShow` (set with `datetime.now()` at construction time and never
compared) is not modelled.
-/

namespace TheatreScraper

/-- Calendar date, the relevant content of a Python `datetime` produced by the
date parser (`src/scraper_static.py`).  Only year/month/day ever matter to the
scraper's comparisons. -/
structure Date where
  year : Nat
  month : Nat
  day : Nat
deriving DecidableEq, Repr

/-- Model of the `TheaterShow` dataclass (`src/models.py`, lines 13-34),
without the impure `last_updated` timestamp field. -/
structure TheaterShow where
  title : String
  venue : String
  url : String
  performance_start_date : Option Date := none
  performance_end_date : Option Date := none
  member_sale_date : Option Date := none
  general_sale_date : Option Date := none
  price_range : Option String := none
  genre : Option String := none
  description : Option String := none
  theater_id : String := ""
deriving DecidableEq, Repr

/-! ## Snapshot differ (`src/data_storage.py`, `compare_snapshots`, lines 123-177) -/

/-- The identity key `(show.title, show.venue)` used by `compare_snapshots`
(line 134-136). -/
abbrev ShowKey := String × String

def showKey (s : TheaterShow) : ShowKey := (s.title, s.venue)

/-- One step of Python dict construction `d[(show.title, show.venue)] = show`:
if the key is already present its value is overwritten in place (the key keeps
its original position), otherwise the pair is appended.  This is exactly the
behaviour of a Python `dict` comprehension with colliding keys
(insertion order, last write wins). -/
def dictInsert (d : List (ShowKey × TheaterShow)) (s : TheaterShow) :
    List (ShowKey × TheaterShow) :=
  if d.any (fun kv => decide (kv.1 = showKey s)) then
    d.map (fun kv => if kv.1 = showKey s then (kv.1, s) else kv)
  else
    d ++ [(showKey s, s)]

/-- `{(show.title, show.venue): show for show in shows}`
(`data_storage.py` lines 135-136). -/
def buildDict (shows : List TheaterShow) : List (ShowKey × TheaterShow) :=
  shows.foldl dictInsert []

/-- Python `d[k]` / `d.get(k)` on the model dict. -/
def dictFind (d : List (ShowKey × TheaterShow)) (k : ShowKey) : Option TheaterShow :=
  (d.find? (fun kv => decide (kv.1 = k))).map (·.2)

/-- Python `k in d` on the model dict. -/
def dictHasKey (d : List (ShowKey × TheaterShow)) (k : ShowKey) : Bool :=
  d.any (fun kv => decide (kv.1 = k))

/-- The field comparison of `data_storage.py` lines 153-156: the four tracked
fields `performance_start_date`, `performance_end_date`, `price_range`,
`description`. -/
def trackedFieldsDiffer (c p : TheaterShow) : Bool :=
  decide (c.performance_start_date ≠ p.performance_start_date) ||
  decide (c.performance_end_date ≠ p.performance_end_date) ||
  decide (c.price_range ≠ p.price_range) ||
  decide (c.description ≠ p.description)

/-- The dictionary returned by `compare_snapshots` (lines 172-177). -/
structure ComparisonResult where
  new_shows : List TheaterShow
  updated_shows : List (TheaterShow × TheaterShow)
  unchanged_shows : List TheaterShow
  removed_shows : List TheaterShow
deriving DecidableEq, Repr

/-- One iteration of the `for key, current_show in current_dict.items()` loop
(lines 144-164): append the entry to exactly one of the three accumulating
lists.  (The Python code tests `key not in previous_dict` and then reads
`previous_dict[key]`; matching on the lookup result is the same thing.) -/
def classifyStep (previous_dict : List (ShowKey × TheaterShow))
    (acc : List TheaterShow × List (TheaterShow × TheaterShow) × List TheaterShow)
    (kv : ShowKey × TheaterShow) :
    List TheaterShow × List (TheaterShow × TheaterShow) × List TheaterShow :=
  match dictFind previous_dict kv.1 with
  | none => (acc.1 ++ [kv.2], acc.2.1, acc.2.2)
  | some prev =>
      if trackedFieldsDiffer kv.2 prev then
        (acc.1, acc.2.1 ++ [(kv.2, prev)], acc.2.2)
      else
        (acc.1, acc.2.1, acc.2.2 ++ [kv.2])

/-- `compare_snapshots(current_shows, previous_shows)`
(`src/data_storage.py` lines 123-177). -/
def compare_snapshots (current_shows previous_shows : List TheaterShow) :
    ComparisonResult :=
  let current_dict := buildDict current_shows
  let previous_dict := buildDict previous_shows
  let acc := current_dict.foldl (classifyStep previous_dict) ([], [], [])
  { new_shows := acc.1
    updated_shows := acc.2.1
    unchanged_shows := acc.2.2
    removed_shows :=
      (previous_dict.filter (fun kv => !dictHasKey current_dict kv.1)).map (·.2) }

/-! ### Characterisation lemmas for the differ -/

theorem classify_foldl (pd : List (ShowKey × TheaterShow))
    (l : List (ShowKey × TheaterShow))
    (a : List TheaterShow) (b : List (TheaterShow × TheaterShow))
    (c : List TheaterShow) :
    l.foldl (classifyStep pd) (a, b, c) =
      (a ++ l.filterMap (fun kv =>
          if (dictFind pd kv.1).isNone then some kv.2 else none),
       b ++ l.filterMap (fun kv =>
          match dictFind pd kv.1 with
          | some p => if trackedFieldsDiffer kv.2 p then some (kv.2, p) else none
          | none => none),
       c ++ l.filterMap (fun kv =>
          match dictFind pd kv.1 with
          | some p => if trackedFieldsDiffer kv.2 p then none else some kv.2
          | none => none)) := by
  induction l generalizing a b c with
  | nil => simp
  | cons kv l ih =>
      cases h : dictFind pd kv.1 with
      | none => simp [classifyStep, h, ih]
      | some p =>
          by_cases hd : trackedFieldsDiffer kv.2 p <;>
            simp [classifyStep, h, hd, ih]

theorem compare_new_eq (current previous : List TheaterShow) :
    (compare_snapshots current previous).new_shows =
      (buildDict current).filterMap (fun kv =>
        if (dictFind (buildDict previous) kv.1).isNone then some kv.2 else none) := by
  simp [compare_snapshots, classify_foldl]

theorem compare_updated_eq (current previous : List TheaterShow) :
    (compare_snapshots current previous).updated_shows =
      (buildDict current).filterMap (fun kv =>
        match dictFind (buildDict previous) kv.1 with
        | some p => if trackedFieldsDiffer kv.2 p then some (kv.2, p) else none
        | none => none) := by
  simp [compare_snapshots, classify_foldl]

theorem compare_unchanged_eq (current previous : List TheaterShow) :
    (compare_snapshots current previous).unchanged_shows =
      (buildDict current).filterMap (fun kv =>
        match dictFind (buildDict previous) kv.1 with
        | some p => if trackedFieldsDiffer kv.2 p then none else some kv.2
        | none => none) := by
  simp [compare_snapshots, classify_foldl]

theorem compare_removed_eq (current previous : List TheaterShow) :
    (compare_snapshots current previous).removed_shows =
      ((buildDict previous).filter
        (fun kv => !dictHasKey (buildDict current) kv.1)).map (·.2) := by
  simp [compare_snapshots]

/-- Every entry of the model dict pairs a record of the input list with its
own identity key. -/
theorem buildDict_entry_mem (shows : List TheaterShow) :
    ∀ kv ∈ buildDict shows, kv.1 = showKey kv.2 ∧ kv.2 ∈ shows := by
  have general : ∀ (l : List TheaterShow) (d : List (ShowKey × TheaterShow))
      (P : TheaterShow → Prop),
      (∀ kv ∈ d, kv.1 = showKey kv.2 ∧ P kv.2) → (∀ s ∈ l, P s) →
      ∀ kv ∈ l.foldl dictInsert d, kv.1 = showKey kv.2 ∧ P kv.2 := by
    intro l
    induction l with
    | nil => intro d P hd _ kv hkv; exact hd kv hkv
    | cons s l ih =>
        intro d P hd hl kv hkv
        refine ih (dictInsert d s) P ?_ (fun t ht => hl t (List.mem_cons_of_mem _ ht)) kv hkv
        intro kv' hkv'
        unfold dictInsert at hkv'
        by_cases hmem : d.any (fun kv => decide (kv.1 = showKey s))
        · rw [if_pos hmem] at hkv'
          rcases List.mem_map.mp hkv' with ⟨kv₀, hkv₀, hmap⟩
          by_cases heq : kv₀.1 = showKey s
          · rw [if_pos heq] at hmap
            subst hmap
            exact ⟨heq, hl s (List.mem_cons_self s l)⟩
          · rw [if_neg heq] at hmap
            subst hmap
            exact hd kv₀ hkv₀
        · rw [if_neg hmem] at hkv'
          rcases List.mem_append.mp hkv' with h | h
          · exact hd kv' h
          · rcases List.mem_singleton.mp h with rfl
            exact ⟨rfl, hl s (List.mem_cons_self s l)⟩
  intro kv hkv
  have := general shows [] (fun t => t ∈ shows)
    (by intro kv h; cases h) (fun s hs => hs) kv hkv
  exact this

/-- Lookup after one dict insertion. -/
theorem dictFind_dictInsert (d : List (ShowKey × TheaterShow))
    (s : TheaterShow) (k : ShowKey) :
    dictFind (dictInsert d s) k =
      if showKey s = k then some s else dictFind d k := by
  unfold dictInsert
  by_cases hmem : d.any (fun kv => decide (kv.1 = showKey s))
  · rw [if_pos hmem]
    unfold dictFind
    rw [List.find?_map]
    have hpred : ((fun kv : ShowKey × TheaterShow => decide (kv.1 = k)) ∘
        (fun kv => if kv.1 = showKey s then (kv.1, s) else kv)) =
        fun kv : ShowKey × TheaterShow => decide (kv.1 = k) := by
      funext kv
      by_cases h : kv.1 = showKey s <;> simp [h]
    rw [hpred]
    by_cases h2 : showKey s = k
    · subst h2
      obtain ⟨kv₁, hkv₁, hp⟩ := List.any_eq_true.mp hmem
      have hsome : (d.find? (fun kv => decide (kv.1 = showKey s))).isSome :=
        List.find?_isSome.mpr ⟨kv₁, hkv₁, hp⟩
      obtain ⟨kv₂, hfind⟩ := Option.isSome_iff_exists.mp hsome
      have hk2 : kv₂.1 = showKey s := by simpa using List.find?_some hfind
      simp [hfind, hk2]
    · cases hfind : d.find? (fun kv => decide (kv.1 = k)) with
      | none => simp [hfind, if_neg h2]
      | some kv₂ =>
          have hk2 : kv₂.1 = k := by simpa using List.find?_some hfind
          have hne : ¬ kv₂.1 = showKey s := by
            rw [hk2]; exact fun h => h2 h.symm
          simp [hfind, if_neg h2, hne]
  · rw [if_neg hmem]
    unfold dictFind
    rw [List.find?_append]
    by_cases h2 : showKey s = k
    · have hnone : d.find? (fun kv => decide (kv.1 = k)) = none := by
        apply List.find?_eq_none.mpr
        intro kv hkv
        simp only [decide_eq_true_eq]
        intro hk
        exact hmem (List.any_eq_true.mpr
          ⟨kv, hkv, decide_eq_true (by rw [hk, ← h2])⟩)
      simp [hnone, List.find?, h2]
    · cases hfind : d.find? (fun kv => decide (kv.1 = k)) with
      | none => simp [hfind, List.find?, h2]
      | some kv₂ => simp [hfind, if_neg h2]

/-- Last-write-wins: looking a key up in the model dict returns the last
record of the input list carrying that key. -/
theorem buildDict_find_last (shows : List TheaterShow) (k : ShowKey) :
    dictFind (buildDict shows) k =
      (shows.filter (fun s => decide (showKey s = k))).getLast? := by
  have general : ∀ (l : List TheaterShow) (d : List (ShowKey × TheaterShow)),
      dictFind (l.foldl dictInsert d) k =
        ((l.filter (fun s => decide (showKey s = k))).getLast?).or (dictFind d k) := by
    intro l
    induction l with
    | nil => simp
    | cons s l ih =>
        intro d
        by_cases h : showKey s = k
        · simp only [List.foldl_cons, ih, List.filter_cons, decide_eq_true h,
            if_true]
          rw [dictFind_dictInsert, if_pos h]
          cases hlast : (l.filter (fun s => decide (showKey s = k))).getLast? with
          | none =>
              have hnil : l.filter (fun s => decide (showKey s = k)) = [] :=
                List.getLast?_eq_none_iff.mp hlast
              simp [hnil]
          | some x =>
              have hne : l.filter (fun s => decide (showKey s = k)) ≠ [] := by
                intro hfnil; rw [hfnil] at hlast; simp at hlast
              obtain ⟨y, ys, hf⟩ := List.exists_cons_of_ne_nil hne
              rw [hf] at hlast ⊢
              rw [List.getLast?_cons_cons, hlast]
              simp
        · simp only [List.foldl_cons, ih, List.filter_cons, decide_eq_false h]
          rw [dictFind_dictInsert, if_neg h]
          simp
  simpa [buildDict, dictFind] using general shows []

/-- `dictHasKey` agrees with `dictFind`. -/
theorem dictHasKey_eq_isSome (d : List (ShowKey × TheaterShow)) (k : ShowKey) :
    dictHasKey d k = (dictFind d k).isSome := by
  unfold dictHasKey dictFind
  cases hfind : List.find? (fun kv => decide (kv.1 = k)) d with
  | none =>
      simp only [hfind, Option.map_none', Option.isSome_none, List.any_eq_false]
      intro kv hkv
      simpa using List.find?_eq_none.mp hfind kv hkv
  | some kv₂ =>
      simp only [hfind, Option.map_some', Option.isSome_some, List.any_eq_true]
      exact ⟨kv₂, List.mem_of_find?_eq_some hfind,
        by simpa using List.find?_some hfind⟩

/-- On a duplicate-free snapshot the model dict is just the list of keyed
records, in order. -/
theorem buildDict_of_distinct (shows : List TheaterShow)
    (h : shows.Pairwise fun a b => showKey a ≠ showKey b) :
    buildDict shows = shows.map (fun s => (showKey s, s)) := by
  have general : ∀ (l : List TheaterShow) (d : List (ShowKey × TheaterShow)),
      l.Pairwise (fun a b => showKey a ≠ showKey b) →
      (∀ s ∈ l, ¬ dictHasKey d (showKey s)) →
      l.foldl dictInsert d = d ++ l.map (fun s => (showKey s, s)) := by
    intro l
    induction l with
    | nil => intro d _ _; simp
    | cons s l ih =>
        intro d hp hd
        have hnot : ¬ d.any (fun kv => decide (kv.1 = showKey s)) :=
          hd s (List.mem_cons_self _ _)
        have hins : dictInsert d s = d ++ [(showKey s, s)] := by
          unfold dictInsert; rw [if_neg hnot]
        simp only [List.foldl_cons, hins, List.map_cons]
        rw [ih (d ++ [(showKey s, s)]) (List.Pairwise.of_cons hp) ?_]
        · simp
        · intro t ht hkey
          unfold dictHasKey at hkey
          rcases List.any_eq_true.mp hkey with ⟨kv, hkv, hkeq⟩
          rcases List.mem_append.mp hkv with hin | hin
          · exact hd t (List.mem_cons_of_mem _ ht)
              (List.any_eq_true.mpr ⟨kv, hin, hkeq⟩)
          · rcases List.mem_singleton.mp hin with rfl
            have hst : showKey s ≠ showKey t :=
              (List.pairwise_cons.mp hp).1 t ht
            exact hst (by simpa using hkeq)
  simpa [buildDict] using general shows [] h (by intro s _ h; simp [dictHasKey] at h)

/-- A successful dict lookup exhibits an entry of the dict. -/
theorem dictFind_mem (d : List (ShowKey × TheaterShow)) (k : ShowKey)
    (c : TheaterShow) (h : dictFind d k = some c) : (k, c) ∈ d := by
  unfold dictFind at h
  rcases Option.map_eq_some'.mp h with ⟨kv, hfind, h2⟩
  have h1 : kv.1 = k := by simpa using List.find?_some hfind
  have hmem := List.mem_of_find?_eq_some hfind
  rw [← h1, ← h2]
  simpa using hmem

/-- The four tracked fields compare equal iff `trackedFieldsDiffer` is `false`. -/
theorem trackedFieldsDiffer_eq_false (c p : TheaterShow) :
    trackedFieldsDiffer c p = false ↔
      (c.performance_start_date = p.performance_start_date ∧
       c.performance_end_date = p.performance_end_date ∧
       c.price_range = p.price_range ∧
       c.description = p.description) := by
  simp [trackedFieldsDiffer, not_or, and_assoc]

theorem mem_new_of_find (current previous : List TheaterShow) (k : ShowKey)
    (c : TheaterShow) (hc : dictFind (buildDict current) k = some c)
    (hp : dictFind (buildDict previous) k = none) :
    c ∈ (compare_snapshots current previous).new_shows := by
  rw [compare_new_eq]
  refine List.mem_filterMap.mpr ⟨(k, c), dictFind_mem _ _ _ hc, ?_⟩
  simp [hp]

theorem mem_updated_of_find (current previous : List TheaterShow) (k : ShowKey)
    (c p : TheaterShow) (hc : dictFind (buildDict current) k = some c)
    (hp : dictFind (buildDict previous) k = some p)
    (hd : trackedFieldsDiffer c p = true) :
    (c, p) ∈ (compare_snapshots current previous).updated_shows := by
  rw [compare_updated_eq]
  refine List.mem_filterMap.mpr ⟨(k, c), dictFind_mem _ _ _ hc, ?_⟩
  simp [hp, hd]

theorem mem_unchanged_of_find (current previous : List TheaterShow) (k : ShowKey)
    (c p : TheaterShow) (hc : dictFind (buildDict current) k = some c)
    (hp : dictFind (buildDict previous) k = some p)
    (hd : trackedFieldsDiffer c p = false) :
    c ∈ (compare_snapshots current previous).unchanged_shows := by
  rw [compare_unchanged_eq]
  refine List.mem_filterMap.mpr ⟨(k, c), dictFind_mem _ _ _ hc, ?_⟩
  simp [hp, hd]

theorem mem_removed_of_find (current previous : List TheaterShow) (k : ShowKey)
    (p : TheaterShow) (hp : dictFind (buildDict previous) k = some p)
    (hc : dictFind (buildDict current) k = none) :
    p ∈ (compare_snapshots current previous).removed_shows := by
  rw [compare_removed_eq]
  refine List.mem_map.mpr ⟨(k, p), List.mem_filter.mpr ⟨dictFind_mem _ _ _ hp, ?_⟩, rfl⟩
  simp [dictHasKey_eq_isSome, hc]

theorem not_mem_updated_of_equal (current previous : List TheaterShow)
    (k : ShowKey) (c p : TheaterShow)
    (_hc : dictFind (buildDict current) k = some c)
    (_hp : dictFind (buildDict previous) k = some p)
    (hd : trackedFieldsDiffer c p = false) :
    (c, p) ∉ (compare_snapshots current previous).updated_shows := by
  rw [compare_updated_eq]
  intro hmem
  rcases List.mem_filterMap.mp hmem with ⟨kv, hkv, hfn⟩
  cases hq : dictFind (buildDict previous) kv.1 with
  | none => rw [hq] at hfn; simp at hfn
  | some p' =>
      rw [hq] at hfn
      dsimp only at hfn
      by_cases hdiff : trackedFieldsDiffer kv.2 p' = true
      · rw [if_pos hdiff] at hfn
        have hpair := Option.some.inj hfn
        have h1 : kv.2 = c := congrArg Prod.fst hpair
        have h2 : p' = p := congrArg Prod.snd hpair
        rw [h1, h2] at hdiff
        rw [hd] at hdiff
        exact Bool.false_ne_true hdiff
      · rw [if_neg hdiff] at hfn
        simp at hfn

/-- **C1.** For every identity key present in `current`, `compare_snapshots`
classifies the key's record as new when the key is absent from `previous`;
as updated (pairing the current and previous records) when any of the four
tracked fields `performance_start_date`, `performance_end_date`,
`price_range`, `description` differs; and as unchanged when all four tracked
fields are equal — so a difference confined to `genre`, `url` or any other
non-tracked field never produces an "updated" classification. -/
theorem compare_classifies_each_key
    (current previous : List TheaterShow) (k : ShowKey) (c : TheaterShow)
    (hc : dictFind (buildDict current) k = some c) :
    (dictFind (buildDict previous) k = none →
        c ∈ (compare_snapshots current previous).new_shows) ∧
    (∀ p, dictFind (buildDict previous) k = some p →
        (trackedFieldsDiffer c p = true →
            (c, p) ∈ (compare_snapshots current previous).updated_shows) ∧
        (trackedFieldsDiffer c p = false →
            c ∈ (compare_snapshots current previous).unchanged_shows ∧
            (c, p) ∉ (compare_snapshots current previous).updated_shows)) ∧
    (∀ p, dictFind (buildDict previous) k = some p →
        c.performance_start_date = p.performance_start_date →
        c.performance_end_date = p.performance_end_date →
        c.price_range = p.price_range →
        c.description = p.description →
        c ∈ (compare_snapshots current previous).unchanged_shows ∧
        (c, p) ∉ (compare_snapshots current previous).updated_shows) := by
  refine ⟨fun hp => mem_new_of_find current previous k c hc hp,
    fun p hp => ⟨fun hd => mem_updated_of_find current previous k c p hc hp hd,
      fun hd => ⟨mem_unchanged_of_find current previous k c p hc hp hd,
        not_mem_updated_of_equal current previous k c p hc hp hd⟩⟩,
    fun p hp h1 h2 h3 h4 => ?_⟩
  have hd : trackedFieldsDiffer c p = false :=
    (trackedFieldsDiffer_eq_false c p).mpr ⟨h1, h2, h3, h4⟩
  exact ⟨mem_unchanged_of_find current previous k c p hc hp hd,
    not_mem_updated_of_equal current previous k c p hc hp hd⟩

/-- The sample records of spec §8 ("Differ — identity and classification"). -/
def showOne : TheaterShow :=
  { title := "Show 1", venue := "Theatre A", url := "",
    performance_start_date := some ⟨2025, 3, 1⟩, price_range := some "£20-50" }

def showOnePrev : TheaterShow :=
  { title := "Show 1", venue := "Theatre A", url := "",
    performance_start_date := some ⟨2025, 3, 10⟩, price_range := some "£20-50" }

def showTwo : TheaterShow :=
  { title := "Show 2", venue := "Theatre B", url := "",
    description := some "An exciting show" }

def showThree : TheaterShow :=
  { title := "Show 3", venue := "Theatre C", url := "",
    performance_start_date := some ⟨2025, 5, 1⟩ }

def showFour : TheaterShow :=
  { title := "Show 4", venue := "Theatre D", url := "",
    performance_start_date := some ⟨2025, 6, 1⟩ }

theorem compare_classifies_each_key_witness :
    showThree ∈ (compare_snapshots [showOne, showTwo, showThree]
        [showOnePrev, showTwo, showFour]).new_shows ∧
    (showOne, showOnePrev) ∈ (compare_snapshots [showOne, showTwo, showThree]
        [showOnePrev, showTwo, showFour]).updated_shows ∧
    showTwo ∈ (compare_snapshots [showOne, showTwo, showThree]
        [showOnePrev, showTwo, showFour]).unchanged_shows :=
  ⟨(compare_classifies_each_key [showOne, showTwo, showThree]
      [showOnePrev, showTwo, showFour] ("Show 3", "Theatre C") showThree
      (by decide)).1 (by decide),
   ((compare_classifies_each_key [showOne, showTwo, showThree]
      [showOnePrev, showTwo, showFour] ("Show 1", "Theatre A") showOne
      (by decide)).2.1 showOnePrev (by decide)).1 (by decide),
   (((compare_classifies_each_key [showOne, showTwo, showThree]
      [showOnePrev, showTwo, showFour] ("Show 2", "Theatre B") showTwo
      (by decide)).2.1 showTwo (by decide)).2 (by decide)).1⟩

/-- Two distinct records sharing the identity key `("Dup", "V")`. -/
def dupA : TheaterShow := { title := "Dup", venue := "V", url := "a" }

def dupB : TheaterShow := { title := "Dup", venue := "V", url := "b" }

/-- **C5 counterexample.** With duplicate identity keys inside `current`, the
dict construction collapses the duplicates (last write wins), so
`compare(current, [])` does *not* return `newShows == current`: here it
returns only the second record. -/
theorem compare_empty_previous_counterexample :
    (compare_snapshots [dupA, dupB] []).new_shows = [dupB] ∧
    (compare_snapshots [dupA, dupB] []).new_shows ≠ [dupA, dupB] := by
  decide

/-- **C5 (amended).** For every non-empty `current` whose records have
pairwise distinct identity keys, `compare(current, [])` returns
`newShows = current` in the original order and empty `updatedShows`,
`unchangedShows` and `removedShows`. -/
theorem compare_empty_previous (current : List TheaterShow)
    (_hne : current ≠ [])
    (hkeys : current.Pairwise fun a b => showKey a ≠ showKey b) :
    (compare_snapshots current []).new_shows = current ∧
    (compare_snapshots current []).updated_shows = [] ∧
    (compare_snapshots current []).unchanged_shows = [] ∧
    (compare_snapshots current []).removed_shows = [] := by
  have hcd := buildDict_of_distinct current hkeys
  refine ⟨?_, ?_, ?_, ?_⟩
  · rw [compare_new_eq, hcd]
    simp only [buildDict, List.foldl_nil, dictFind, List.find?_nil,
      Option.map_none', Option.isNone_none, if_true, List.filterMap_map]
    rw [show ((fun kv : ShowKey × TheaterShow => some kv.2) ∘
        fun s => (showKey s, s)) = some ∘ (fun s => s) from rfl]
    rw [List.filterMap_eq_map, List.map_id']
  · rw [compare_updated_eq, hcd]
    simp [buildDict, dictFind]
  · rw [compare_unchanged_eq, hcd]
    simp [buildDict, dictFind]
  · rw [compare_removed_eq]
    simp [buildDict]

theorem compare_empty_previous_witness :
    (compare_snapshots [showOne, showTwo] []).new_shows = [showOne, showTwo] ∧
    (compare_snapshots [showOne, showTwo] []).updated_shows = [] ∧
    (compare_snapshots [showOne, showTwo] []).unchanged_shows = [] ∧
    (compare_snapshots [showOne, showTwo] []).removed_shows = [] :=
  compare_empty_previous [showOne, showTwo] (by decide) (by decide)

/-- **C6.** When an input sequence contains several records with the same
identity key, the record `compare_snapshots` uses for that key — and places
in its output — is the *last* record with that key in sequence order
(last write wins during dict construction). -/
theorem compare_uses_last_duplicate
    (current previous : List TheaterShow) (k : ShowKey) :
    dictFind (buildDict current) k =
      (current.filter fun s => decide (showKey s = k)).getLast? ∧
    dictFind (buildDict previous) k =
      (previous.filter fun s => decide (showKey s = k)).getLast? ∧
    (∀ c, (current.filter fun s => decide (showKey s = k)).getLast? = some c →
      (dictFind (buildDict previous) k = none →
          c ∈ (compare_snapshots current previous).new_shows) ∧
      (∀ p, dictFind (buildDict previous) k = some p →
          (trackedFieldsDiffer c p = true →
              (c, p) ∈ (compare_snapshots current previous).updated_shows) ∧
          (trackedFieldsDiffer c p = false →
              c ∈ (compare_snapshots current previous).unchanged_shows))) ∧
    (∀ p, (previous.filter fun s => decide (showKey s = k)).getLast? = some p →
      dictFind (buildDict current) k = none →
      p ∈ (compare_snapshots current previous).removed_shows) := by
  refine ⟨buildDict_find_last current k, buildDict_find_last previous k,
    fun c hlast => ?_, fun p hlast hcur => ?_⟩
  · have hc : dictFind (buildDict current) k = some c := by
      rw [buildDict_find_last]; exact hlast
    exact ⟨fun hp => mem_new_of_find current previous k c hc hp,
      fun p hp => ⟨fun hd => mem_updated_of_find current previous k c p hc hp hd,
        fun hd => mem_unchanged_of_find current previous k c p hc hp hd⟩⟩
  · have hp : dictFind (buildDict previous) k = some p := by
      rw [buildDict_find_last]; exact hlast
    exact mem_removed_of_find current previous k p hp hcur

theorem compare_uses_last_duplicate_witness :
    dictFind (buildDict [dupA, dupB]) ("Dup", "V") = some dupB ∧
    dupB ∈ (compare_snapshots [dupA, dupB] []).new_shows := by
  have h := compare_uses_last_duplicate [dupA, dupB] [] ("Dup", "V")
  exact ⟨by rw [h.1]; decide, (h.2.2.1 dupB (by decide)).1 (by decide)⟩

/-- **C10.** `compare_snapshots` returns its input records unmodified:
`newShows` and `unchangedShows` hold records of `current`, `removedShows`
holds records of `previous`, and every `updatedShows` entry pairs a record of
`current` with a record of `previous` that has the same identity key. -/
theorem compare_returns_inputs_unmodified (current previous : List TheaterShow) :
    (∀ s ∈ (compare_snapshots current previous).new_shows, s ∈ current) ∧
    (∀ s ∈ (compare_snapshots current previous).unchanged_shows, s ∈ current) ∧
    (∀ s ∈ (compare_snapshots current previous).removed_shows, s ∈ previous) ∧
    (∀ cp ∈ (compare_snapshots current previous).updated_shows,
        cp.1 ∈ current ∧ cp.2 ∈ previous ∧ showKey cp.1 = showKey cp.2) := by
  refine ⟨?_, ?_, ?_, ?_⟩
  · intro s hs
    rw [compare_new_eq] at hs
    rcases List.mem_filterMap.mp hs with ⟨kv, hkv, hfn⟩
    have hkv2 : kv.2 = s := by
      by_cases h : (dictFind (buildDict previous) kv.1).isNone <;> simp [h] at hfn
      exact hfn
    exact hkv2 ▸ (buildDict_entry_mem current kv hkv).2
  · intro s hs
    rw [compare_unchanged_eq] at hs
    rcases List.mem_filterMap.mp hs with ⟨kv, hkv, hfn⟩
    have hkv2 : kv.2 = s := by
      cases hq : dictFind (buildDict previous) kv.1 with
      | none => rw [hq] at hfn; simp at hfn
      | some p =>
          rw [hq] at hfn
          dsimp only at hfn
          by_cases hd : trackedFieldsDiffer kv.2 p = true
          · rw [if_pos hd] at hfn; simp at hfn
          · rw [if_neg hd] at hfn; exact Option.some.inj hfn
    exact hkv2 ▸ (buildDict_entry_mem current kv hkv).2
  · intro s hs
    rw [compare_removed_eq] at hs
    rcases List.mem_map.mp hs with ⟨kv, hkv, hkv2⟩
    have hmem := (List.mem_filter.mp hkv).1
    exact hkv2 ▸ (buildDict_entry_mem previous kv hmem).2
  · intro cp hcp
    rw [compare_updated_eq] at hcp
    rcases List.mem_filterMap.mp hcp with ⟨kv, hkv, hfn⟩
    cases hq : dictFind (buildDict previous) kv.1 with
    | none => rw [hq] at hfn; simp at hfn
    | some p =>
        rw [hq] at hfn
        dsimp only at hfn
        by_cases hd : trackedFieldsDiffer kv.2 p = true
        · rw [if_pos hd] at hfn
          have hpair := Option.some.inj hfn
          have hc : kv.2 = cp.1 := congrArg Prod.fst hpair
          have hpp : p = cp.2 := congrArg Prod.snd hpair
          have hkey : kv.1 = showKey kv.2 := (buildDict_entry_mem current kv hkv).1
          have hpmem := dictFind_mem _ _ _ hq
          have hpkey : kv.1 = showKey p := (buildDict_entry_mem previous _ hpmem).1
          refine ⟨hc ▸ (buildDict_entry_mem current kv hkv).2,
            hpp ▸ (buildDict_entry_mem previous _ hpmem).2, ?_⟩
          rw [← hc, ← hpp, ← hkey, ← hpkey]
        · rw [if_neg hd] at hfn; simp at hfn

theorem compare_returns_inputs_unmodified_witness :
    showOne ∈ [showOne, showTwo] ∧
    (showOne ∈ [showOne] ∧ showOnePrev ∈ [showOnePrev] ∧
      showKey showOne = showKey showOnePrev) :=
  ⟨(compare_returns_inputs_unmodified [showOne, showTwo] []).1 showOne (by decide),
   (compare_returns_inputs_unmodified [showOne] [showOnePrev]).2.2.2
     (showOne, showOnePrev) (by decide)⟩

/-! ## Character-level utilities

The regular-expression and string operations of `scraper_static.py`, spelled
out on `List Char`.  Character classes follow Python's ASCII behaviour (the
scraped keywords and month names are all ASCII). -/

/-- Python regex `\s` (ASCII whitespace). -/
def isSpaceChar (c : Char) : Bool :=
  c.toNat = 32 || c.toNat = 9 || c.toNat = 10 || c.toNat = 13 ||
  c.toNat = 11 || c.toNat = 12

/-- Python regex `\d` (ASCII digits). -/
def isDigitChar (c : Char) : Bool := 48 ≤ c.toNat && c.toNat ≤ 57

/-- Python regex `\w` (ASCII letters, digits, underscore). -/
def isWordChar (c : Char) : Bool :=
  isDigitChar c || (97 ≤ c.toNat && c.toNat ≤ 122) ||
  (65 ≤ c.toNat && c.toNat ≤ 90) || c.toNat = 95

/-- An ASCII letter. -/
def isLetterChar (c : Char) : Bool :=
  (97 ≤ c.toNat && c.toNat ≤ 122) || (65 ≤ c.toNat && c.toNat ≤ 90)

/-- Python `str.lower()` on the ASCII range. -/
def lowerChar (c : Char) : Char :=
  if 65 ≤ c.toNat && c.toNat ≤ 90 then Char.ofNat (c.toNat + 32) else c

def lowerChars (l : List Char) : List Char := l.map lowerChar

def lowerStr (s : String) : String := ⟨lowerChars s.data⟩

/-- Accumulator-based splitting of a string into its maximal runs of
non-whitespace characters (`acc` holds the current run, reversed). -/
def wordsOfAux : List Char → List Char → List (List Char)
  | [], acc => if acc.isEmpty then [] else [acc.reverse]
  | c :: cs, acc =>
      if isSpaceChar c then
        if acc.isEmpty then wordsOfAux cs [] else acc.reverse :: wordsOfAux cs []
      else wordsOfAux cs (c :: acc)

/-- The maximal runs of non-whitespace characters, in order. -/
def wordsOf (l : List Char) : List (List Char) := wordsOfAux l []

/-- Interleave single spaces between words. -/
def joinWords : List (List Char) → List Char
  | [] => []
  | [w] => w
  | w :: ws => w ++ ' ' :: joinWords ws

/-- `re.sub(r'\s+', ' ', s).strip()` (`scraper_static.py` line 92): collapse
whitespace runs to single spaces and trim the ends. -/
def normalizeWs (s : String) : String := ⟨joinWords (wordsOf s.data)⟩

/-- Python `str.strip()` (ASCII whitespace). -/
def stripChars (l : List Char) : List Char :=
  ((l.dropWhile isSpaceChar).reverse.dropWhile isSpaceChar).reverse

def stripStr (s : String) : String := ⟨stripChars s.data⟩

/-- `hay` starts with `needle`. -/
def startsWithChars : List Char → List Char → Bool
  | _, [] => true
  | [], _ :: _ => false
  | c :: cs, d :: ds => c = d && startsWithChars cs ds

/-- Python `needle in hay` (substring containment). -/
def containsSub (hay needle : List Char) : Bool :=
  match hay with
  | [] => startsWithChars [] needle
  | c :: cs => startsWithChars (c :: cs) needle || containsSub cs needle

/-! ## Date text interpreter (`scraper_static.py`, `parse_date_string`, lines 78-143) -/

/-- Count the leading run of digits; return its length and the rest. -/
def takeDigits (l : List Char) : Nat × List Char :=
  match l with
  | [] => (0, [])
  | c :: cs =>
      if isDigitChar c then
        let r := takeDigits cs
        (r.1 + 1, r.2)
      else (0, c :: cs)

/-- One of `/`, `.`, `-` — the separators of the strict numeric pattern. -/
def isSepChar (c : Char) : Bool := c = '/' || c = '.' || c = '-'

/-- Python regex `^\d{1,2}[/.-]\d{1,2}[/.-]\d{2,4}$`
(`parse_date_string`, line 104). -/
def strictNumericMatch (l : List Char) : Bool :=
  (1 ≤ (takeDigits l).1 && (takeDigits l).1 ≤ 2) &&
  match (takeDigits l).2 with
  | c :: rest =>
      isSepChar c &&
      ((1 ≤ (takeDigits rest).1 && (takeDigits rest).1 ≤ 2) &&
       match (takeDigits rest).2 with
       | c2 :: rest2 =>
           isSepChar c2 &&
           ((2 ≤ (takeDigits rest2).1 && (takeDigits rest2).1 ≤ 4) &&
            (takeDigits rest2).2.isEmpty)
       | [] => false)
  | [] => false

/-- Python regex `^\d{4}$` (`parse_date_string`, line 99). -/
def isBareYear (l : List Char) : Bool :=
  l.length = 4 && l.all isDigitChar

/-- The 24 month names checked by `parse_date_string` (lines 120-124), in
order, matched against with 1-based indices by `enumerate(month_names, 1)`. -/
def month_names : List String :=
  ["jan", "feb", "mar", "apr", "may", "jun", "jul", "aug", "sep", "oct",
   "nov", "dec", "january", "february", "march", "april", "may", "june",
   "july", "august", "september", "october", "november", "december"]

/-- The loop of lines 126-131: a month name occurs in the lowercased text but
its 1-based index does not agree with the parsed month modulo 12. -/
def monthNameMismatchAux (hay : List Char) (month : Nat) :
    Nat → List String → Bool
  | _, [] => false
  | i, name :: rest =>
      (containsSub hay name.data && decide (i % 12 ≠ month % 12)) ||
      monthNameMismatchAux hay month (i + 1) rest

def monthNameMismatch (clean : List Char) (month : Nat) : Bool :=
  monthNameMismatchAux (lowerChars clean) month 1 month_names

/-- One attempted match of `\b(20\d{2})\b` at the current position: `prev` is
the character before the position (`none` at the start of the string). -/
def yearMatchAt (prev : Option Char) (l : List Char) : Option Nat :=
  if (match prev with | none => false | some p => isWordChar p) then none
  else match l with
  | [] => none
  | c0 :: l1 =>
      if c0 = '2' then
        match l1 with
        | [] => none
        | c1 :: l2 =>
            if c1 = '0' then
              match l2 with
              | [] => none
              | c2 :: l3 =>
                  if isDigitChar c2 then
                    match l3 with
                    | [] => none
                    | c3 :: rest =>
                        if isDigitChar c3 then
                          if (match rest with
                              | [] => true
                              | r :: _ => !isWordChar r) then
                            some (2000 + (c2.toNat - 48) * 10 + (c3.toNat - 48))
                          else none
                        else none
                  else none
            else none
      else none

def findYear20Aux (prev : Option Char) (l : List Char) : Option Nat :=
  match l with
  | [] => none
  | c :: cs =>
      match yearMatchAt prev (c :: cs) with
      | some y => some y
      | none => findYear20Aux (some c) cs

/-- `re.search(r'\b(20\d{2})\b', clean_string)` (line 134): the leftmost
word-bounded four-digit number starting `20`, as a number. -/
def findYear20 (l : List Char) : Option Nat := findYear20Aux none l

/-- The fuzzy branch of `parse_date_string` (lines 111-143): call the fuzzy
parser, then validate the parsed month against any month name occurring in
the text and the parsed year against a four-digit `20xx` year occurring in
the text. -/
def fuzzyBranch (fuzzyParse : String → Option Date) (clean : String) :
    Option Date :=
  match fuzzyParse clean with
  | none => none
  | some result =>
      if monthNameMismatch clean.data result.month then none
      else
        match findYear20 clean.data with
        | some y => if y ≠ result.year then none else some result
        | none => some result

/-- `parse_date_string` after whitespace normalisation (lines 94-143). -/
def parseClean (strictParse fuzzyParse : String → Option Date)
    (clean : String) : Option Date :=
  if clean.length < 5 then none
  else if isBareYear clean.data then none
  else
    match (if strictNumericMatch clean.data then strictParse clean else none) with
    | some d => some d
    | none => fuzzyBranch fuzzyParse clean

/-- `parse_date_string` (`src/scraper_static.py`, lines 78-143).  The two
`dateutil.parser.parse` calls are parameters of the embedding:
`strictParse clean` models `date_parser.parse(clean_string, dayfirst=True)`
and `fuzzyParse clean` models `date_parser.parse(clean_string, fuzzy=True)`;
`none` models a raised `ValueError`/`TypeError`.  A `none` input models
passing `None` (rejected by the `isinstance` guard, line 88). -/
def parse_date_string (strictParse fuzzyParse : String → Option Date)
    (date_string : Option String) : Option Date :=
  match date_string with
  | none => none
  | some s =>
      if s = "" then none
      else parseClean strictParse fuzzyParse (normalizeWs s)

/-! ### Lemmas about the string utilities -/

theorem wordsOfAux_nonspace : ∀ (xs rest acc : List Char),
    (∀ c ∈ xs, isSpaceChar c = false) →
    wordsOfAux (xs ++ rest) acc = wordsOfAux rest (xs.reverse ++ acc) := by
  intro xs
  induction xs with
  | nil => intro rest acc _; simp
  | cons x xt ih =>
      intro rest acc h
      have hx := h x (List.mem_cons_self _ _)
      simp only [List.cons_append, wordsOfAux, hx, Bool.false_eq_true, if_false,
        List.append_eq]
      rw [ih rest (x :: acc) (fun c hc => h c (List.mem_cons_of_mem _ hc))]
      simp [List.append_assoc]

theorem wordsOf_append_space (a rest : List Char) (ha : a ≠ [])
    (hn : ∀ c ∈ a, isSpaceChar c = false) :
    wordsOf (a ++ ' ' :: rest) = a :: wordsOf rest := by
  unfold wordsOf
  rw [wordsOfAux_nonspace a (' ' :: rest) [] hn]
  have hsp : isSpaceChar ' ' = true := by decide
  have hne : a.reverse.isEmpty = false := by
    simp [List.isEmpty_iff, ha]
  simp only [wordsOfAux, hsp, if_true, List.append_nil, hne,
    Bool.false_eq_true, if_false, List.reverse_reverse]

theorem wordsOf_all_nonspace (a : List Char) (ha : a ≠ [])
    (hn : ∀ c ∈ a, isSpaceChar c = false) : wordsOf a = [a] := by
  unfold wordsOf
  have := wordsOfAux_nonspace a [] [] hn
  rw [List.append_nil] at this
  rw [this]
  have hne : a.reverse.isEmpty = false := by
    simp [List.isEmpty_iff, ha]
  simp only [wordsOfAux, List.append_nil, hne, Bool.false_eq_true, if_false,
    List.reverse_reverse]

/-- A text made of three space-separated space-free words is already
whitespace-normalised. -/
theorem normalizeWs_three_words (a b c : List Char)
    (ha : a ≠ []) (hb : b ≠ []) (hc : c ≠ [])
    (hna : ∀ ch ∈ a, isSpaceChar ch = false)
    (hnb : ∀ ch ∈ b, isSpaceChar ch = false)
    (hnc : ∀ ch ∈ c, isSpaceChar ch = false) :
    normalizeWs ⟨a ++ ' ' :: (b ++ ' ' :: c)⟩ = ⟨a ++ ' ' :: (b ++ ' ' :: c)⟩ := by
  unfold normalizeWs
  show String.mk (joinWords (wordsOf (a ++ ' ' :: (b ++ ' ' :: c)))) = _
  rw [wordsOf_append_space a _ ha hna, wordsOf_append_space b _ hb hnb,
    wordsOf_all_nonspace c hc hnc]
  rfl

theorem startsWithChars_subset :
    ∀ (hay needle : List Char), startsWithChars hay needle = true →
    ∀ c ∈ needle, c ∈ hay := by
  intro hay
  induction hay with
  | nil =>
      intro needle h c hc
      cases needle with
      | nil => cases hc
      | cons d ds => cases h
  | cons x xt ih =>
      intro needle h c hc
      cases needle with
      | nil => cases hc
      | cons d ds =>
          simp only [startsWithChars, Bool.and_eq_true, decide_eq_true_eq] at h
          rcases List.mem_cons.mp hc with rfl | hmem
          · rw [← h.1]; exact List.mem_cons_self _ _
          · exact List.mem_cons_of_mem _ (ih ds h.2 c hmem)

theorem containsSub_subset :
    ∀ (hay needle : List Char), containsSub hay needle = true →
    ∀ c ∈ needle, c ∈ hay := by
  intro hay
  induction hay with
  | nil =>
      intro needle h c hc
      cases needle with
      | nil => cases hc
      | cons d ds => cases h
  | cons x xt ih =>
      intro needle h c hc
      simp only [containsSub, Bool.or_eq_true] at h
      rcases h with h | h
      · exact startsWithChars_subset _ _ h c hc
      · exact List.mem_cons_of_mem _ (ih needle h c hc)

theorem containsSub_false_of_not_mem (hay needle : List Char) (c : Char)
    (hc : c ∈ needle) (hn : c ∉ hay) : containsSub hay needle = false := by
  cases h : containsSub hay needle with
  | false => rfl
  | true => exact absurd (containsSub_subset hay needle h c hc) hn

theorem startsWithChars_append_sep (sep : Char) :
    ∀ (needle xs ys : List Char), sep ∉ needle →
    startsWithChars (xs ++ sep :: ys) needle = startsWithChars xs needle := by
  intro needle
  induction needle with
  | nil => intro xs ys _; cases xs <;> rfl
  | cons n ns ih =>
      intro xs ys h
      cases xs with
      | nil =>
          have hne : ¬ (sep = n) := fun he => h (he ▸ List.mem_cons_self n ns)
          simp [startsWithChars, hne]
      | cons x xt =>
          have h2 := ih xt ys (fun hm => h (List.mem_cons_of_mem _ hm))
          simp only [List.cons_append, startsWithChars, List.append_eq]
          rw [h2]

theorem containsSub_append_sep (sep : Char) :
    ∀ (xs ys needle : List Char), sep ∉ needle →
    containsSub (xs ++ sep :: ys) needle =
      (containsSub xs needle || containsSub ys needle) := by
  intro xs
  induction xs with
  | nil =>
      intro ys needle h
      simp only [List.nil_append, containsSub]
      rw [show sep :: ys = [] ++ sep :: ys from rfl,
        startsWithChars_append_sep sep needle [] ys h]
  | cons x xt ih =>
      intro ys needle h
      have h1 : startsWithChars ((x :: xt) ++ sep :: ys) needle =
          startsWithChars (x :: xt) needle :=
        startsWithChars_append_sep sep needle (x :: xt) ys h
      have h2 := ih ys needle h
      simp only [List.cons_append, containsSub, List.append_eq] at h1 ⊢
      rw [h1, h2, Bool.or_assoc]

/-! ### Rejection properties of the date interpreter (C7) -/

/-- **C7.** `parse_date_string` returns nothing for a `None` input, the empty
string, any input whose whitespace-normalised form is shorter than five
characters (which covers a bare 4-digit year such as `"2025"`), and the
non-date string `"Not a date"` (on which `dateutil`'s fuzzy parse raises, as
hypothesis `hf` records — the repository's own test suite asserts this
input parses to `None`). -/
theorem parse_date_string_rejections
    (strictParse fuzzyParse : String → Option Date)
    (hf : fuzzyParse "Not a date" = none) :
    parse_date_string strictParse fuzzyParse none = none ∧
    parse_date_string strictParse fuzzyParse (some "") = none ∧
    parse_date_string strictParse fuzzyParse (some "2025") = none ∧
    parse_date_string strictParse fuzzyParse (some "Not a date") = none ∧
    (∀ s, (normalizeWs s).length < 5 →
      parse_date_string strictParse fuzzyParse (some s) = none) := by
  refine ⟨rfl, rfl, rfl, ?_, ?_⟩
  · have hred : parse_date_string strictParse fuzzyParse (some "Not a date") =
        fuzzyBranch fuzzyParse "Not a date" := rfl
    rw [hred]
    unfold fuzzyBranch
    rw [hf]
  · intro s hlen
    have hred : parse_date_string strictParse fuzzyParse (some s) =
        if s = "" then none
        else parseClean strictParse fuzzyParse (normalizeWs s) := rfl
    rw [hred]
    by_cases hs : s = ""
    · rw [if_pos hs]
    · rw [if_neg hs]
      unfold parseClean
      rw [if_pos hlen]

theorem parse_date_string_rejections_witness :
    parse_date_string (fun _ => none) (fun _ => none) none = none ∧
    parse_date_string (fun _ => none) (fun _ => none) (some "") = none ∧
    parse_date_string (fun _ => none) (fun _ => none) (some "2025") = none ∧
    parse_date_string (fun _ => none) (fun _ => none) (some "Not a date") = none ∧
    parse_date_string (fun _ => none) (fun _ => none) (some "s") = none :=
  have h := parse_date_string_rejections (fun _ => none) (fun _ => none) rfl
  ⟨h.1, h.2.1, h.2.2.1, h.2.2.2.1, h.2.2.2.2 "s" (by decide)⟩

/-! ### Month/year cross-checks of the date interpreter (C2) -/

/-- The claim's "the text contains a recognizable month name for month `m`
(3-letter abbreviation or full name, case-insensitive)", with the same
containment notion the code itself uses: the abbreviation (1-based position
`m` in `month_names`) or the full name (position `m + 12`) occurs in the
lowercased text. -/
def containsMonthName (clean : List Char) (m : Nat) : Prop :=
  containsSub (lowerChars clean) ((month_names.getD (m - 1) "").data) = true ∨
  containsSub (lowerChars clean) ((month_names.getD (m + 11) "").data) = true

theorem monthNameMismatchAux_false (hay : List Char) (month : Nat) :
    ∀ (names : List String) (i j : Nat), j < names.length →
    monthNameMismatchAux hay month i names = false →
    containsSub hay ((names.getD j "").data) = true →
    (i + j) % 12 = month % 12 := by
  intro names
  induction names with
  | nil => intro i j hj; exact absurd hj (Nat.not_lt_zero j)
  | cons name rest ih =>
      intro i j hj h hc
      simp only [monthNameMismatchAux, Bool.or_eq_false_iff] at h
      obtain ⟨h1, h2⟩ := h
      cases j with
      | zero =>
          rw [List.getD_cons_zero] at hc
          rw [hc] at h1
          simp only [Bool.true_and, decide_eq_false_iff_not, not_not] at h1
          simpa using h1
      | succ j' =>
          have := ih (i + 1) j' (by simpa using hj) h2
            (by simpa using hc)
          rw [show i + (j' + 1) = i + 1 + j' from by omega]
          exact this

theorem month_from_mismatch_false (clean : List Char) (month m : Nat)
    (hm1 : 1 ≤ m) (hm2 : m ≤ 12)
    (hmm : monthNameMismatch clean month = false)
    (hc : containsMonthName clean m) : month % 12 = m % 12 := by
  unfold monthNameMismatch at hmm
  have hlen : month_names.length = 24 := rfl
  rcases hc with hc | hc
  · have h := monthNameMismatchAux_false (lowerChars clean) month month_names
      1 (m - 1) (by omega) hmm hc
    rw [show 1 + (m - 1) = m from by omega] at h
    exact h.symm
  · have h := monthNameMismatchAux_false (lowerChars clean) month month_names
      1 (m + 11) (by omega) hmm hc
    rw [show 1 + (m + 11) = m + 12 from by omega, Nat.add_mod_right] at h
    exact h.symm

theorem takeDigits_cover :
    ∀ (l : List Char) (c : Char), c ∈ l →
    isDigitChar c = true ∨ c ∈ (takeDigits l).2 := by
  intro l
  induction l with
  | nil => intro c hc; cases hc
  | cons x xt ih =>
      intro c hc
      by_cases hd : isDigitChar x
      · rcases List.mem_cons.mp hc with rfl | hmem
        · exact Or.inl hd
        · rcases ih c hmem with h | h
          · exact Or.inl h
          · right
            simp only [takeDigits, hd, if_true]
            exact h
      · right
        simp only [takeDigits, hd, Bool.false_eq_true, if_false]
        exact hc

theorem strictNumericMatch_chars (l : List Char)
    (h : strictNumericMatch l = true) :
    ∀ c ∈ l, isDigitChar c = true ∨ isSepChar c = true := by
  intro c hc
  rcases takeDigits_cover l c hc with hd | h2
  · exact Or.inl hd
  unfold strictNumericMatch at h
  cases hr1 : (takeDigits l).2 with
  | nil => rw [hr1] at h2; cases h2
  | cons s1 t1 =>
      rw [hr1] at h h2
      dsimp only at h
      simp only [Bool.and_eq_true] at h
      obtain ⟨-, hsep1, -, hmatch⟩ := h
      rcases List.mem_cons.mp h2 with rfl | h3
      · exact Or.inr hsep1
      rcases takeDigits_cover t1 c h3 with hd | h4
      · exact Or.inl hd
      cases hr2 : (takeDigits t1).2 with
      | nil => rw [hr2] at h4; cases h4
      | cons s2 t2 =>
          rw [hr2] at hmatch h4
          dsimp only at hmatch
          simp only [Bool.and_eq_true] at hmatch
          obtain ⟨hsep2, -, hempty⟩ := hmatch
          rcases List.mem_cons.mp h4 with rfl | h5
          · exact Or.inr hsep2
          rcases takeDigits_cover t2 c h5 with hd | h6
          · exact Or.inl hd
          rw [List.isEmpty_iff.mp hempty] at h6
          cases h6

theorem lowerChars_eq_self (l : List Char)
    (h : ∀ c ∈ l, c.toNat < 65) : lowerChars l = l := by
  induction l with
  | nil => rfl
  | cons x xt ih =>
      have hx := h x (List.mem_cons_self _ _)
      simp only [lowerChars, List.map_cons]
      rw [show lowerChar x = x from by
          unfold lowerChar
          rw [if_neg]
          simp only [Bool.and_eq_true, decide_eq_true_eq, not_and]
          omega]
      have := ih (fun c hc => h c (List.mem_cons_of_mem _ hc))
      simp only [lowerChars] at this
      rw [this]

theorem no_month_in_numeric (clean : List Char)
    (hall : ∀ c ∈ clean, isDigitChar c = true ∨ isSepChar c = true)
    (m : Nat) (hm1 : 1 ≤ m) (hm2 : m ≤ 12) :
    ¬ containsMonthName clean m := by
  have hlow : ∀ c ∈ clean, c.toNat < 65 := by
    intro c hc
    rcases hall c hc with h | h
    · simp only [isDigitChar, Bool.and_eq_true, decide_eq_true_eq] at h
      omega
    · rcases (by simpa [isSepChar, or_assoc] using h :
          c = '/' ∨ c = '.' ∨ c = '-') with rfl | rfl | rfl <;> decide
  have hlc : lowerChars clean = clean := lowerChars_eq_self clean hlow
  have hname : ∀ name ∈ month_names,
      name.data ≠ [] ∧ name.data.all isLetterChar = true := by decide
  have hlen : month_names.length = 24 := rfl
  have key : ∀ idx, idx < month_names.length →
      containsSub (lowerChars clean) ((month_names.getD idx "").data) = true →
      False := by
    intro idx hidx hcon
    rw [hlc] at hcon
    have hmem : month_names.getD idx "" ∈ month_names := by
      rw [List.getD_eq_getElem _ _ hidx]
      exact List.getElem_mem hidx
    obtain ⟨hne, hletters⟩ := hname _ hmem
    obtain ⟨ch, cht, hcons⟩ := List.exists_cons_of_ne_nil hne
    have hch : ch ∈ (month_names.getD idx "").data := by
      rw [hcons]; exact List.mem_cons_self _ _
    have hchl : isLetterChar ch = true := List.all_eq_true.mp hletters ch hch
    have hin : ch ∈ clean := containsSub_subset _ _ hcon ch hch
    have := hlow ch hin
    simp only [isLetterChar, Bool.or_eq_true, Bool.and_eq_true,
      decide_eq_true_eq] at hchl
    omega
  intro hc
  rcases hc with hcon | hcon
  · exact key (m - 1) (by omega) hcon
  · exact key (m + 11) (by omega) hcon

theorem fuzzyBranch_guards (fuzzyParse : String → Option Date) (clean : String)
    (d : Date) (h : fuzzyBranch fuzzyParse clean = some d) :
    monthNameMismatch clean.data d.month = false ∧
    (∀ y, findYear20 clean.data = some y → d.year = y) := by
  unfold fuzzyBranch at h
  cases hfz : fuzzyParse clean with
  | none => rw [hfz] at h; cases h
  | some result =>
      rw [hfz] at h
      dsimp only at h
      by_cases hmm : monthNameMismatch clean.data result.month = true
      · rw [if_pos hmm] at h; cases h
      · rw [if_neg hmm] at h
        cases hfy : findYear20 clean.data with
        | none =>
            rw [hfy] at h
            dsimp only at h
            have hrd : result = d := Option.some.inj h
            subst hrd
            exact ⟨by simpa using hmm, fun y hy => by cases hy⟩
        | some y0 =>
            rw [hfy] at h
            dsimp only at h
            by_cases hne : y0 ≠ result.year
            · rw [if_pos hne] at h; cases h
            · rw [if_neg hne] at h
              have hrd : result = d := Option.some.inj h
              push_neg at hne
              subst hrd
              refine ⟨by simpa using hmm, fun y hy => ?_⟩
              have := Option.some.inj hy
              omega

/-- **C2.** Whenever `parse_date_string` returns a date, that date's month
agrees (modulo 12) with every month name contained in the whitespace-
normalised input, and its year equals the leftmost word-bounded 4-digit
`20xx` year contained in the input, if any.  The hypothesis `hstrict`
records the one `dateutil` fact the strict numeric branch relies on: a
day-first parse of a string of shape `D[/.-]M[/.-]Y` that contains a
word-bounded four-digit `20xx` year returns exactly that year (such strings
contain no month names, so the month half needs no assumption). -/
theorem parse_date_string_month_year_guard
    (strictParse fuzzyParse : String → Option Date) (s : String) (d : Date)
    (hstrict : ∀ t y d', strictNumericMatch t.data = true →
        findYear20 t.data = some y → strictParse t = some d' → d'.year = y)
    (hres : parse_date_string strictParse fuzzyParse (some s) = some d) :
    (∀ m, 1 ≤ m → m ≤ 12 → containsMonthName (normalizeWs s).data m →
        d.month % 12 = m % 12) ∧
    (∀ y, findYear20 (normalizeWs s).data = some y → d.year = y) := by
  have hred : parse_date_string strictParse fuzzyParse (some s) =
      if s = "" then none
      else parseClean strictParse fuzzyParse (normalizeWs s) := rfl
  rw [hred] at hres
  by_cases hs : s = ""
  · rw [if_pos hs] at hres; cases hres
  rw [if_neg hs] at hres
  set clean := normalizeWs s with hcl
  unfold parseClean at hres
  by_cases h5 : clean.length < 5
  · rw [if_pos h5] at hres; cases hres
  rw [if_neg h5] at hres
  by_cases hb : isBareYear clean.data = true
  · rw [if_pos hb] at hres; cases hres
  rw [if_neg hb] at hres
  by_cases hsm : strictNumericMatch clean.data = true
  · rw [if_pos hsm] at hres
    cases hsp : strictParse clean with
    | none =>
        rw [hsp] at hres
        dsimp only at hres
        have hg := fuzzyBranch_guards fuzzyParse clean d hres
        exact ⟨fun m hm1 hm2 hcm =>
          month_from_mismatch_false clean.data d.month m hm1 hm2 hg.1 hcm,
          hg.2⟩
    | some d' =>
        rw [hsp] at hres
        dsimp only at hres
        have hd' : d' = d := Option.some.inj hres
        subst hd'
        refine ⟨fun m hm1 hm2 hcm => absurd hcm
          (no_month_in_numeric clean.data
            (strictNumericMatch_chars clean.data hsm) m hm1 hm2),
          fun y hy => hstrict clean y d' hsm hy hsp⟩
  · rw [if_neg hsm] at hres
    dsimp only at hres
    have hg := fuzzyBranch_guards fuzzyParse clean d hres
    exact ⟨fun m hm1 hm2 hcm =>
      month_from_mismatch_false clean.data d.month m hm1 hm2 hg.1 hcm,
      hg.2⟩

theorem parse_date_string_month_year_guard_witness :
    (Date.mk 2024 3 15).month % 12 = 3 % 12 ∧
    (Date.mk 2024 3 15).year = 2024 :=
  have h := parse_date_string_month_year_guard (fun _ => none)
    (fun _ => some ⟨2024, 3, 15⟩) "15 Mar 2024" ⟨2024, 3, 15⟩
    (fun _ _ _ _ _ hp => Option.noConfusion hp)
    (by decide)
  ⟨h.1 3 (by decide) (by decide) (Or.inl (by decide)), h.2 2024 (by decide)⟩

/-! ### Round-trip on "D Month YYYY" input (C8) -/

/-- The decimal digit character for `n < 10`. -/
def digitChar (n : Nat) : Char := Char.ofNat (48 + n)

/-- A day rendered with one or two digits (no leading zero). -/
def renderDay (n : Nat) : List Char :=
  if n < 10 then [digitChar n] else [digitChar (n / 10), digitChar (n % 10)]

/-- A year rendered with exactly four digits. -/
def renderYear4 (y : Nat) : List Char :=
  [digitChar (y / 1000 % 10), digitChar (y / 100 % 10),
   digitChar (y / 10 % 10), digitChar (y % 10)]

/-- The capitalised full English month names. -/
def monthFullCap : List String :=
  ["January", "February", "March", "April", "May", "June", "July",
   "August", "September", "October", "November", "December"]

/-- The claim's input format "D Month YYYY" (1-2 digit day, full English
month name, 4-digit year), e.g. `"1 June 2025"`. -/
def renderDMY (d : Date) : String :=
  ⟨renderDay d.day ++ ' ' :: ((monthFullCap.getD (d.month - 1) "").data ++
    ' ' :: renderYear4 d.year)⟩

theorem digitChar_toNat (n : Nat) (h : n < 10) :
    (digitChar n).toNat = 48 + n := by
  interval_cases n <;> decide

theorem digitChar_isDigit (n : Nat) (h : n < 10) :
    isDigitChar (digitChar n) = true := by
  interval_cases n <;> decide

theorem not_space_of_digit (c : Char) (h : isDigitChar c = true) :
    isSpaceChar c = false := by
  simp only [isDigitChar, Bool.and_eq_true, decide_eq_true_eq] at h
  simp only [isSpaceChar, Bool.or_eq_false_iff, decide_eq_false_iff_not]
  omega

theorem not_space_of_letter (c : Char) (h : isLetterChar c = true) :
    isSpaceChar c = false := by
  simp only [isLetterChar, Bool.or_eq_true, Bool.and_eq_true,
    decide_eq_true_eq] at h
  simp only [isSpaceChar, Bool.or_eq_false_iff, decide_eq_false_iff_not]
  omega

theorem not_letter_of_digit (c : Char) (h : isDigitChar c = true) :
    isLetterChar c = false := by
  simp only [isDigitChar, Bool.and_eq_true, decide_eq_true_eq] at h
  simp only [isLetterChar, Bool.or_eq_false_iff, Bool.and_eq_false_iff,
    decide_eq_false_iff_not]
  omega

theorem letter_ne_two (c : Char) (h : isLetterChar c = true) : ¬ c = '2' := by
  intro he
  rw [he] at h
  exact absurd h (by decide)

theorem digit_toNat_lt (c : Char) (h : isDigitChar c = true) : c.toNat < 65 := by
  simp only [isDigitChar, Bool.and_eq_true, decide_eq_true_eq] at h
  omega

theorem renderDay_digits (n : Nat) (h : n ≤ 99) :
    ∀ c ∈ renderDay n, isDigitChar c = true := by
  unfold renderDay
  split
  · intro c hc
    rcases List.mem_singleton.mp hc with rfl
    exact digitChar_isDigit n (by omega)
  · intro c hc
    rcases List.mem_cons.mp hc with rfl | hc2
    · exact digitChar_isDigit _ (by omega)
    · rcases List.mem_singleton.mp hc2 with rfl
      exact digitChar_isDigit _ (Nat.mod_lt _ (by norm_num))

theorem renderDay_ne_nil (n : Nat) : renderDay n ≠ [] := by
  unfold renderDay; split <;> simp

theorem renderDay_length (n : Nat) : (renderDay n).length ≤ 2 := by
  unfold renderDay; split <;> simp

theorem renderYear4_digits (y : Nat) :
    ∀ c ∈ renderYear4 y, isDigitChar c = true := by
  intro c hc
  unfold renderYear4 at hc
  rcases List.mem_cons.mp hc with rfl | hc
  · exact digitChar_isDigit _ (Nat.mod_lt _ (by norm_num))
  rcases List.mem_cons.mp hc with rfl | hc
  · exact digitChar_isDigit _ (Nat.mod_lt _ (by norm_num))
  rcases List.mem_cons.mp hc with rfl | hc
  · exact digitChar_isDigit _ (Nat.mod_lt _ (by norm_num))
  rcases List.mem_singleton.mp hc with rfl
  exact digitChar_isDigit _ (Nat.mod_lt _ (by norm_num))

/-- Letter-only needles cannot straddle the space-separated skeleton:
containment in `A ++ ' ' :: (B ++ ' ' :: Y)` with letter-free `A` and `Y`
is containment in `B`. -/
theorem containsSub_three_parts (A B Y needle : List Char)
    (hA : ∀ c ∈ A, isLetterChar c = false)
    (hY : ∀ c ∈ Y, isLetterChar c = false)
    (hne : needle ≠ []) (hn : ∀ c ∈ needle, isLetterChar c = true) :
    containsSub (A ++ ' ' :: (B ++ ' ' :: Y)) needle = containsSub B needle := by
  have hsp : ' ' ∉ needle := fun hmem => by
    have := hn ' ' hmem
    exact absurd this (by decide)
  rw [containsSub_append_sep ' ' A (B ++ ' ' :: Y) needle hsp,
      containsSub_append_sep ' ' B Y needle hsp]
  obtain ⟨c, ct, hcons⟩ := List.exists_cons_of_ne_nil hne
  have hcmem : c ∈ needle := by rw [hcons]; exact List.mem_cons_self _ _
  have hcl : isLetterChar c = true := hn c hcmem
  have hA0 : containsSub A needle = false :=
    containsSub_false_of_not_mem A needle c hcmem
      (fun hin => by rw [hA c hin] at hcl; cases hcl)
  have hY0 : containsSub Y needle = false :=
    containsSub_false_of_not_mem Y needle c hcmem
      (fun hin => by rw [hY c hin] at hcl; cases hcl)
  rw [hA0, hY0]
  simp

theorem monthNameMismatchAux_congr (hay1 hay2 : List Char) (month : Nat) :
    ∀ (names : List String) (i : Nat),
    (∀ name ∈ names, containsSub hay1 name.data = containsSub hay2 name.data) →
    monthNameMismatchAux hay1 month i names =
      monthNameMismatchAux hay2 month i names := by
  intro names
  induction names with
  | nil => intro i _; rfl
  | cons name rest ih =>
      intro i h
      simp only [monthNameMismatchAux]
      rw [h name (List.mem_cons_self _ _),
        ih (i + 1) (fun n hn => h n (List.mem_cons_of_mem _ hn))]

theorem yearMatchAt_not2 (prev : Option Char) (c0 : Char) (t : List Char)
    (h : ¬ c0 = '2') : yearMatchAt prev (c0 :: t) = none := by
  unfold yearMatchAt
  by_cases hb : (match prev with | none => false | some p => isWordChar p) = true
  · rw [if_pos hb]
  · rw [if_neg hb]
    dsimp only
    rw [if_neg h]

theorem yearMatchAt_space (prev : Option Char) (t : List Char) :
    yearMatchAt prev (' ' :: t) = none :=
  yearMatchAt_not2 prev ' ' t (by decide)

theorem yearMatchAt_c1_space (prev : Option Char) (c0 : Char) (t : List Char) :
    yearMatchAt prev (c0 :: ' ' :: t) = none := by
  unfold yearMatchAt
  by_cases hb : (match prev with | none => false | some p => isWordChar p) = true
  · rw [if_pos hb]
  · rw [if_neg hb]
    dsimp only
    by_cases h0 : c0 = '2'
    · rw [if_pos h0]
      try dsimp only
      rw [if_neg (by decide : ¬ (' ' = '0'))]
    · rw [if_neg h0]

theorem yearMatchAt_c2_space (prev : Option Char) (c0 c1 : Char)
    (t : List Char) : yearMatchAt prev (c0 :: c1 :: ' ' :: t) = none := by
  unfold yearMatchAt
  by_cases hb : (match prev with | none => false | some p => isWordChar p) = true
  · rw [if_pos hb]
  · rw [if_neg hb]
    dsimp only
    by_cases h0 : c0 = '2'
    · rw [if_pos h0]
      try dsimp only
      by_cases h1 : c1 = '0'
      · rw [if_pos h1]
        try dsimp only
        rw [if_neg (by decide : ¬ (isDigitChar ' ' = true))]
      · rw [if_neg h1]
    · rw [if_neg h0]

theorem yearMatchAt_year4 (y : Nat) (hy1 : 2000 ≤ y) (hy2 : y ≤ 2099) :
    yearMatchAt (some ' ') (renderYear4 y) = some y := by
  have e1 : y / 1000 % 10 = 2 := by omega
  have e2 : y / 100 % 10 = 0 := by omega
  have h3 : y / 10 % 10 < 10 := Nat.mod_lt _ (by norm_num)
  have h4 : y % 10 < 10 := Nat.mod_lt _ (by norm_num)
  unfold renderYear4 yearMatchAt
  rw [e1, e2]
  rw [if_neg (by decide : ¬ ((match some ' ' with
      | none => false | some p => isWordChar p) = true))]
  try dsimp only
  rw [if_pos (show digitChar 2 = '2' from rfl)]
  try dsimp only
  rw [if_pos (show digitChar 0 = '0' from rfl)]
  try dsimp only
  rw [if_pos (digitChar_isDigit _ h3)]
  try dsimp only
  rw [if_pos (digitChar_isDigit _ h4)]
  try dsimp only
  rw [if_pos (by decide : (match ([] : List Char) with
      | [] => true | r :: _ => !isWordChar r) = true)]
  rw [digitChar_toNat _ h3, digitChar_toNat _ h4]
  congr 1
  omega

theorem findYear20Aux_letters (y : Nat) (hy1 : 2000 ≤ y) (hy2 : y ≤ 2099) :
    ∀ (B : List Char) (prev : Option Char),
    (∀ c ∈ B, isLetterChar c = true) →
    findYear20Aux prev (B ++ ' ' :: renderYear4 y) = some y := by
  intro B
  induction B with
  | nil =>
      intro prev _
      rw [List.nil_append]
      show findYear20Aux prev (' ' :: renderYear4 y) = some y
      rw [show findYear20Aux prev (' ' :: renderYear4 y) =
          (match yearMatchAt prev (' ' :: renderYear4 y) with
           | some z => some z
           | none => findYear20Aux (some ' ') (renderYear4 y)) from rfl]
      rw [yearMatchAt_space]
      dsimp only
      rw [show findYear20Aux (some ' ') (renderYear4 y) =
          (match yearMatchAt (some ' ') (renderYear4 y) with
           | some z => some z
           | none => findYear20Aux (some (digitChar (y / 1000 % 10)))
               (renderYear4 y).tail) from rfl]
      rw [yearMatchAt_year4 y hy1 hy2]
  | cons b B' ih =>
      intro prev hB
      rw [List.cons_append]
      rw [show findYear20Aux prev (b :: (B' ++ ' ' :: renderYear4 y)) =
          (match yearMatchAt prev (b :: (B' ++ ' ' :: renderYear4 y)) with
           | some z => some z
           | none => findYear20Aux (some b) (B' ++ ' ' :: renderYear4 y))
          from rfl]
      rw [yearMatchAt_not2 prev b _
        (letter_ne_two b (hB b (List.mem_cons_self _ _)))]
      exact ih (some b) (fun c hc => hB c (List.mem_cons_of_mem _ hc))

/-- The rendered "D Month YYYY" text contains exactly its year as the
leftmost word-bounded `20xx` number. -/
theorem findYear20_render (A B : List Char) (y : Nat)
    (hA : ∀ c ∈ A, isDigitChar c = true) (hAlen : A.length ≤ 2)
    (hB : ∀ c ∈ B, isLetterChar c = true)
    (hy1 : 2000 ≤ y) (hy2 : y ≤ 2099) :
    findYear20 (A ++ ' ' :: (B ++ ' ' :: renderYear4 y)) = some y := by
  unfold findYear20
  cases A with
  | nil =>
      rw [List.nil_append]
      rw [show findYear20Aux none (' ' :: (B ++ ' ' :: renderYear4 y)) =
          (match yearMatchAt none (' ' :: (B ++ ' ' :: renderYear4 y)) with
           | some z => some z
           | none => findYear20Aux (some ' ') (B ++ ' ' :: renderYear4 y))
          from rfl]
      rw [yearMatchAt_space]
      exact findYear20Aux_letters y hy1 hy2 B (some ' ') hB
  | cons a A1 =>
      cases A1 with
      | nil =>
          rw [List.cons_append, List.nil_append]
          rw [show findYear20Aux none (a :: ' ' :: (B ++ ' ' :: renderYear4 y)) =
              (match yearMatchAt none (a :: ' ' :: (B ++ ' ' :: renderYear4 y)) with
               | some z => some z
               | none => findYear20Aux (some a) (' ' :: (B ++ ' ' :: renderYear4 y)))
              from rfl]
          rw [yearMatchAt_c1_space]
          dsimp only
          rw [show findYear20Aux (some a) (' ' :: (B ++ ' ' :: renderYear4 y)) =
              (match yearMatchAt (some a) (' ' :: (B ++ ' ' :: renderYear4 y)) with
               | some z => some z
               | none => findYear20Aux (some ' ') (B ++ ' ' :: renderYear4 y))
              from rfl]
          rw [yearMatchAt_space]
          exact findYear20Aux_letters y hy1 hy2 B (some ' ') hB
      | cons b A2 =>
          cases A2 with
          | nil =>
              rw [List.cons_append, List.cons_append, List.nil_append]
              rw [show findYear20Aux none
                  (a :: b :: ' ' :: (B ++ ' ' :: renderYear4 y)) =
                  (match yearMatchAt none
                      (a :: b :: ' ' :: (B ++ ' ' :: renderYear4 y)) with
                   | some z => some z
                   | none => findYear20Aux (some a)
                       (b :: ' ' :: (B ++ ' ' :: renderYear4 y))) from rfl]
              rw [yearMatchAt_c2_space]
              dsimp only
              rw [show findYear20Aux (some a)
                  (b :: ' ' :: (B ++ ' ' :: renderYear4 y)) =
                  (match yearMatchAt (some a)
                      (b :: ' ' :: (B ++ ' ' :: renderYear4 y)) with
                   | some z => some z
                   | none => findYear20Aux (some b)
                       (' ' :: (B ++ ' ' :: renderYear4 y))) from rfl]
              rw [yearMatchAt_c1_space]
              dsimp only
              rw [show findYear20Aux (some b)
                  (' ' :: (B ++ ' ' :: renderYear4 y)) =
                  (match yearMatchAt (some b)
                      (' ' :: (B ++ ' ' :: renderYear4 y)) with
                   | some z => some z
                   | none => findYear20Aux (some ' ')
                       (B ++ ' ' :: renderYear4 y)) from rfl]
              rw [yearMatchAt_space]
              exact findYear20Aux_letters y hy1 hy2 B (some ' ') hB
          | cons x xs =>
              exact absurd hAlen (by simp only [List.length_cons]; omega)

theorem isWordChar_of_digit (c : Char) (h : isDigitChar c = true) :
    isWordChar c = true := by
  simp only [isWordChar, h, Bool.true_or]

/-- A match attempt right after a word character fails the opening `\b`. -/
theorem yearMatchAt_wordPrev (p : Char) (l : List Char)
    (h : isWordChar p = true) : yearMatchAt (some p) l = none := by
  unfold yearMatchAt
  rw [if_pos (show (match some p with
      | none => false | some q => isWordChar q) = true from h)]

/-- A four-digit year outside 2000-2099 does not match `20\d{2}` at its own
start: either the first digit is not `2`, or the second is not `0`. -/
theorem yearMatchAt_year4_none (y : Nat) (hy2 : y ≤ 9999)
    (hout : y < 2000 ∨ 2100 ≤ y) :
    yearMatchAt (some ' ') (renderYear4 y) = none := by
  unfold renderYear4 yearMatchAt
  rw [if_neg (by decide : ¬ ((match some ' ' with
      | none => false | some p => isWordChar p) = true))]
  dsimp only
  by_cases h2 : digitChar (y / 1000 % 10) = '2'
  · rw [if_pos h2]
    try dsimp only
    have hn1 : y / 1000 % 10 < 10 := Nat.mod_lt _ (by norm_num)
    have ht1 : (digitChar (y / 1000 % 10)).toNat = 48 + y / 1000 % 10 :=
      digitChar_toNat _ hn1
    have ht1v : (digitChar (y / 1000 % 10)).toNat = 50 := by rw [h2]; decide
    rw [if_neg (show ¬ digitChar (y / 100 % 10) = '0' from by
      intro he
      have hn2 : y / 100 % 10 < 10 := Nat.mod_lt _ (by norm_num)
      have ht2 : (digitChar (y / 100 % 10)).toNat = 48 + y / 100 % 10 :=
        digitChar_toNat _ hn2
      have ht2v : (digitChar (y / 100 % 10)).toNat = 48 := by rw [he]; decide
      omega)]
  · rw [if_neg h2]

/-- Scanning a rendered four-digit year outside 2000-2099 finds no match:
the start position fails and every inner position follows a digit. -/
theorem findYear20Aux_year4_none (y : Nat) (hy2 : y ≤ 9999)
    (hout : y < 2000 ∨ 2100 ≤ y) :
    findYear20Aux (some ' ') (renderYear4 y) = none := by
  rw [show findYear20Aux (some ' ') (renderYear4 y) =
      (match yearMatchAt (some ' ') (renderYear4 y) with
       | some z => some z
       | none => findYear20Aux (some (digitChar (y / 1000 % 10)))
           [digitChar (y / 100 % 10), digitChar (y / 10 % 10),
            digitChar (y % 10)]) from rfl]
  rw [yearMatchAt_year4_none y hy2 hout]
  dsimp only
  rw [show findYear20Aux (some (digitChar (y / 1000 % 10)))
      [digitChar (y / 100 % 10), digitChar (y / 10 % 10), digitChar (y % 10)] =
      (match yearMatchAt (some (digitChar (y / 1000 % 10)))
          [digitChar (y / 100 % 10), digitChar (y / 10 % 10),
           digitChar (y % 10)] with
       | some z => some z
       | none => findYear20Aux (some (digitChar (y / 100 % 10)))
           [digitChar (y / 10 % 10), digitChar (y % 10)]) from rfl]
  rw [yearMatchAt_wordPrev _ _ (isWordChar_of_digit _
    (digitChar_isDigit _ (Nat.mod_lt _ (by norm_num))))]
  dsimp only
  rw [show findYear20Aux (some (digitChar (y / 100 % 10)))
      [digitChar (y / 10 % 10), digitChar (y % 10)] =
      (match yearMatchAt (some (digitChar (y / 100 % 10)))
          [digitChar (y / 10 % 10), digitChar (y % 10)] with
       | some z => some z
       | none => findYear20Aux (some (digitChar (y / 10 % 10)))
           [digitChar (y % 10)]) from rfl]
  rw [yearMatchAt_wordPrev _ _ (isWordChar_of_digit _
    (digitChar_isDigit _ (Nat.mod_lt _ (by norm_num))))]
  dsimp only
  rw [show findYear20Aux (some (digitChar (y / 10 % 10)))
      [digitChar (y % 10)] =
      (match yearMatchAt (some (digitChar (y / 10 % 10)))
          [digitChar (y % 10)] with
       | some z => some z
       | none => findYear20Aux (some (digitChar (y % 10))) []) from rfl]
  rw [yearMatchAt_wordPrev _ _ (isWordChar_of_digit _
    (digitChar_isDigit _ (Nat.mod_lt _ (by norm_num))))]
  rfl

theorem findYear20Aux_letters_none (y : Nat) (hy2 : y ≤ 9999)
    (hout : y < 2000 ∨ 2100 ≤ y) :
    ∀ (B : List Char) (prev : Option Char),
    (∀ c ∈ B, isLetterChar c = true) →
    findYear20Aux prev (B ++ ' ' :: renderYear4 y) = none := by
  intro B
  induction B with
  | nil =>
      intro prev _
      rw [List.nil_append]
      rw [show findYear20Aux prev (' ' :: renderYear4 y) =
          (match yearMatchAt prev (' ' :: renderYear4 y) with
           | some z => some z
           | none => findYear20Aux (some ' ') (renderYear4 y)) from rfl]
      rw [yearMatchAt_space]
      dsimp only
      exact findYear20Aux_year4_none y hy2 hout
  | cons b B' ih =>
      intro prev hB
      rw [List.cons_append]
      rw [show findYear20Aux prev (b :: (B' ++ ' ' :: renderYear4 y)) =
          (match yearMatchAt prev (b :: (B' ++ ' ' :: renderYear4 y)) with
           | some z => some z
           | none => findYear20Aux (some b) (B' ++ ' ' :: renderYear4 y))
          from rfl]
      rw [yearMatchAt_not2 prev b _
        (letter_ne_two b (hB b (List.mem_cons_self _ _)))]
      exact ih (some b) (fun c hc => hB c (List.mem_cons_of_mem _ hc))

/-- The rendered "D Month YYYY" text contains no word-bounded `20\d{2}`
number at all when its four-digit year lies outside 2000-2099. -/
theorem findYear20_render_none (A B : List Char) (y : Nat)
    (hAlen : A.length ≤ 2) (hB : ∀ c ∈ B, isLetterChar c = true)
    (hy2 : y ≤ 9999) (hout : y < 2000 ∨ 2100 ≤ y) :
    findYear20 (A ++ ' ' :: (B ++ ' ' :: renderYear4 y)) = none := by
  unfold findYear20
  cases A with
  | nil =>
      rw [List.nil_append]
      rw [show findYear20Aux none (' ' :: (B ++ ' ' :: renderYear4 y)) =
          (match yearMatchAt none (' ' :: (B ++ ' ' :: renderYear4 y)) with
           | some z => some z
           | none => findYear20Aux (some ' ') (B ++ ' ' :: renderYear4 y))
          from rfl]
      rw [yearMatchAt_space]
      exact findYear20Aux_letters_none y hy2 hout B (some ' ') hB
  | cons a A1 =>
      cases A1 with
      | nil =>
          rw [List.cons_append, List.nil_append]
          rw [show findYear20Aux none (a :: ' ' :: (B ++ ' ' :: renderYear4 y)) =
              (match yearMatchAt none (a :: ' ' :: (B ++ ' ' :: renderYear4 y)) with
               | some z => some z
               | none => findYear20Aux (some a) (' ' :: (B ++ ' ' :: renderYear4 y)))
              from rfl]
          rw [yearMatchAt_c1_space]
          dsimp only
          rw [show findYear20Aux (some a) (' ' :: (B ++ ' ' :: renderYear4 y)) =
              (match yearMatchAt (some a) (' ' :: (B ++ ' ' :: renderYear4 y)) with
               | some z => some z
               | none => findYear20Aux (some ' ') (B ++ ' ' :: renderYear4 y))
              from rfl]
          rw [yearMatchAt_space]
          exact findYear20Aux_letters_none y hy2 hout B (some ' ') hB
      | cons b A2 =>
          cases A2 with
          | nil =>
              rw [List.cons_append, List.cons_append, List.nil_append]
              rw [show findYear20Aux none
                  (a :: b :: ' ' :: (B ++ ' ' :: renderYear4 y)) =
                  (match yearMatchAt none
                      (a :: b :: ' ' :: (B ++ ' ' :: renderYear4 y)) with
                   | some z => some z
                   | none => findYear20Aux (some a)
                       (b :: ' ' :: (B ++ ' ' :: renderYear4 y))) from rfl]
              rw [yearMatchAt_c2_space]
              dsimp only
              rw [show findYear20Aux (some a)
                  (b :: ' ' :: (B ++ ' ' :: renderYear4 y)) =
                  (match yearMatchAt (some a)
                      (b :: ' ' :: (B ++ ' ' :: renderYear4 y)) with
                   | some z => some z
                   | none => findYear20Aux (some b)
                       (' ' :: (B ++ ' ' :: renderYear4 y))) from rfl]
              rw [yearMatchAt_c1_space]
              dsimp only
              rw [show findYear20Aux (some b)
                  (' ' :: (B ++ ' ' :: renderYear4 y)) =
                  (match yearMatchAt (some b)
                      (' ' :: (B ++ ' ' :: renderYear4 y)) with
                   | some z => some z
                   | none => findYear20Aux (some ' ')
                       (B ++ ' ' :: renderYear4 y)) from rfl]
              rw [yearMatchAt_space]
              exact findYear20Aux_letters_none y hy2 hout B (some ' ') hB
          | cons x xs =>
              exact absurd hAlen (by simp only [List.length_cons]; omega)

theorem takeDigits_append (xs rest : List Char)
    (hx : ∀ c ∈ xs, isDigitChar c = true)
    (hr : ∀ r t, rest = r :: t → isDigitChar r = false) :
    takeDigits (xs ++ rest) = (xs.length, rest) := by
  induction xs with
  | nil =>
      cases rest with
      | nil => rfl
      | cons r t =>
          simp only [List.nil_append, takeDigits, hr r t rfl,
            Bool.false_eq_true, if_false, List.length_nil]
  | cons x xt ih =>
      have hx0 := hx x (List.mem_cons_self _ _)
      simp only [List.cons_append, List.append_eq, takeDigits, hx0, if_true,
        ih (fun c hc => hx c (List.mem_cons_of_mem _ hc)), List.length_cons]

/-- A digit run followed by a space never matches the strict numeric
day/month/year pattern (the separator must be `/`, `.` or `-`). -/
theorem strict_render_false (A T : List Char)
    (hA : ∀ c ∈ A, isDigitChar c = true) :
    strictNumericMatch (A ++ ' ' :: T) = false := by
  have htd : takeDigits (A ++ ' ' :: T) = (A.length, ' ' :: T) :=
    takeDigits_append A (' ' :: T) hA
      (fun r t h => by injection h with h1 _; rw [← h1]; decide)
  unfold strictNumericMatch
  rw [htd]
  dsimp only
  rw [show isSepChar ' ' = false from rfl]
  simp

/-- **C8.** For every calendar date rendered as "D Month YYYY" (1-2 digit
day, full English month name, 4-digit year), `parse_date_string` returns
exactly that date, provided the external fuzzy parser parses the rendered
text to that date (hypothesis `hf`, which holds of `dateutil` on such
unambiguous inputs).  For a `20xx` year the wrapper's year check finds the
rendered year and it agrees; for any other 4-digit year no word-bounded
`20\d{2}` number occurs in the text and the check is skipped. -/
theorem parse_date_string_roundtrip
    (strictParse fuzzyParse : String → Option Date) (d : Date)
    (hm1 : 1 ≤ d.month) (hm2 : d.month ≤ 12)
    (hd1 : 1 ≤ d.day) (hd2 : d.day ≤ 31)
    (hy1 : 1000 ≤ d.year) (hy2 : d.year ≤ 9999)
    (hf : fuzzyParse (renderDMY d) = some d) :
    parse_date_string strictParse fuzzyParse (some (renderDMY d)) = some d := by
  obtain ⟨yy, mm, dd⟩ := d
  dsimp only at hm1 hm2 hd1 hd2 hy1 hy2
  set A := renderDay dd with hA_def
  set B := (monthFullCap.getD (mm - 1) "").data with hB_def
  set Y := renderYear4 yy with hY_def
  have hmonth_props : ∀ name ∈ monthFullCap, name.data ≠ [] ∧
      name.data.all isLetterChar = true ∧ 3 ≤ name.data.length := by decide
  have hBmem : monthFullCap.getD (mm - 1) "" ∈ monthFullCap := by
    have hlt : mm - 1 < monthFullCap.length := by
      have : monthFullCap.length = 12 := rfl
      omega
    rw [List.getD_eq_getElem _ _ hlt]
    exact List.getElem_mem hlt
  obtain ⟨hBne, hBall, hBlen3⟩ := hmonth_props _ hBmem
  have hBlet : ∀ c ∈ B, isLetterChar c = true :=
    fun c hc => List.all_eq_true.mp hBall c hc
  have hAdig : ∀ c ∈ A, isDigitChar c = true := renderDay_digits dd (by omega)
  have hAne : A ≠ [] := renderDay_ne_nil dd
  have hAlen : A.length ≤ 2 := renderDay_length dd
  have hYdig : ∀ c ∈ Y, isDigitChar c = true := renderYear4_digits yy
  have hYne : Y ≠ [] := by rw [hY_def]; unfold renderYear4; simp
  have hAns : ∀ c ∈ A, isSpaceChar c = false :=
    fun c hc => not_space_of_digit c (hAdig c hc)
  have hBns : ∀ c ∈ B, isSpaceChar c = false :=
    fun c hc => not_space_of_letter c (hBlet c hc)
  have hYns : ∀ c ∈ Y, isSpaceChar c = false :=
    fun c hc => not_space_of_digit c (hYdig c hc)
  have hdata : (renderDMY ⟨yy, mm, dd⟩).data = A ++ ' ' :: (B ++ ' ' :: Y) := rfl
  have hne : ¬ (renderDMY ⟨yy, mm, dd⟩ = "") := by
    intro h
    have hd0 : (renderDMY ⟨yy, mm, dd⟩).data = [] := by rw [h]
    rw [hdata] at hd0
    rcases List.append_eq_nil.mp hd0 with ⟨-, h2⟩
    cases h2
  have hnorm : normalizeWs (renderDMY ⟨yy, mm, dd⟩) = renderDMY ⟨yy, mm, dd⟩ := by
    rw [show renderDMY ⟨yy, mm, dd⟩ = ⟨A ++ ' ' :: (B ++ ' ' :: Y)⟩ from rfl]
    exact normalizeWs_three_words A B Y hAne hBne hYne hAns hBns hYns
  have hred : parse_date_string strictParse fuzzyParse
      (some (renderDMY ⟨yy, mm, dd⟩)) =
      if renderDMY ⟨yy, mm, dd⟩ = "" then none
      else parseClean strictParse fuzzyParse
        (normalizeWs (renderDMY ⟨yy, mm, dd⟩)) := rfl
  rw [hred, if_neg hne, hnorm]
  unfold parseClean
  have hAlen1 : 1 ≤ A.length := by
    cases hA2 : A with
    | nil => exact absurd hA2 hAne
    | cons _ _ => simp
  have hlen_eq : (renderDMY ⟨yy, mm, dd⟩).length =
      A.length + (B.length + 6) := by
    show (A ++ ' ' :: (B ++ ' ' :: Y)).length = _
    have hY4 : Y.length = 4 := by rw [hY_def]; rfl
    simp only [List.length_append, List.length_cons, hY4]
    try omega
  have hlen5 : ¬ ((renderDMY ⟨yy, mm, dd⟩).length < 5) := by omega
  rw [if_neg hlen5]
  have hbare : isBareYear (renderDMY ⟨yy, mm, dd⟩).data = false := by
    unfold isBareYear
    have hne4 : ¬ ((renderDMY ⟨yy, mm, dd⟩).length = 4) := by omega
    simp [hne4]
  rw [if_neg (show ¬ (isBareYear (renderDMY ⟨yy, mm, dd⟩).data = true) from by
    rw [hbare]; simp)]
  have hstrictF : strictNumericMatch (renderDMY ⟨yy, mm, dd⟩).data = false := by
    rw [hdata]; exact strict_render_false A _ hAdig
  rw [show (if strictNumericMatch (renderDMY ⟨yy, mm, dd⟩).data = true then
      strictParse (renderDMY ⟨yy, mm, dd⟩) else none) = none from
    if_neg (by rw [hstrictF]; simp)]
  dsimp only
  unfold fuzzyBranch
  rw [hf]
  dsimp only
  have hmmF : monthNameMismatch (renderDMY ⟨yy, mm, dd⟩).data mm = false := by
    unfold monthNameMismatch
    have hlA : lowerChars A = A :=
      lowerChars_eq_self A (fun c hc => digit_toNat_lt c (hAdig c hc))
    have hlY : lowerChars Y = Y :=
      lowerChars_eq_self Y (fun c hc => digit_toNat_lt c (hYdig c hc))
    have hlower : lowerChars (renderDMY ⟨yy, mm, dd⟩).data =
        A ++ ' ' :: (lowerChars B ++ ' ' :: Y) := by
      rw [hdata]
      simp only [lowerChars, List.map_append, List.map_cons]
      rw [show lowerChar ' ' = ' ' from rfl]
      simp only [lowerChars] at hlA hlY
      rw [hlA, hlY]
    rw [hlower]
    have hnames : ∀ name ∈ month_names, name.data ≠ [] ∧
        name.data.all isLetterChar = true := by decide
    rw [monthNameMismatchAux_congr (A ++ ' ' :: (lowerChars B ++ ' ' :: Y))
      (lowerChars B) mm month_names 1 (fun name hname => by
        obtain ⟨hn1, hn2⟩ := hnames name hname
        exact containsSub_three_parts A (lowerChars B) Y name.data
          (fun c hc => not_letter_of_digit c (hAdig c hc))
          (fun c hc => not_letter_of_digit c (hYdig c hc))
          hn1 (fun c hc => List.all_eq_true.mp hn2 c hc))]
    rw [hB_def]
    interval_cases mm <;> decide
  rw [if_neg (show ¬ (monthNameMismatch (renderDMY ⟨yy, mm, dd⟩).data mm = true)
    from by rw [hmmF]; simp)]
  by_cases h20 : 2000 ≤ yy ∧ yy ≤ 2099
  · have hfy : findYear20 (renderDMY ⟨yy, mm, dd⟩).data = some yy := by
      rw [hdata]
      exact findYear20_render A B yy hAdig hAlen hBlet h20.1 h20.2
    rw [hfy]
    dsimp only
    rw [if_neg (by omega : ¬ (yy ≠ yy))]
  · have hfy : findYear20 (renderDMY ⟨yy, mm, dd⟩).data = none := by
      rw [hdata]
      exact findYear20_render_none A B yy hAlen hBlet hy2 (by omega)
    rw [hfy]

theorem parse_date_string_roundtrip_witness :
    parse_date_string (fun _ => none) (fun _ => some ⟨1999, 6, 1⟩)
      (some (renderDMY ⟨1999, 6, 1⟩)) = some ⟨1999, 6, 1⟩ :=
  parse_date_string_roundtrip (fun _ => none) (fun _ => some ⟨1999, 6, 1⟩)
    ⟨1999, 6, 1⟩ (by decide) (by decide) (by decide) (by decide) (by decide)
    (by decide) rfl

/-! ## HTML document model

A BeautifulSoup document is modelled as a node tree.  `NodeList` is a
specialised list type so that the tree traversals below are structurally
recursive (and therefore compute inside the kernel). -/

mutual
/-- An HTML node: an element (tag name, attributes, children) or a text
string. -/
inductive Node where
  | elem (tag : String) (attrs : List (String × String)) (children : NodeList)
  | text (s : String)
inductive NodeList where
  | nil
  | cons (n : Node) (ns : NodeList)
end

def NodeList.ofList : List Node → NodeList
  | [] => .nil
  | n :: ns => .cons n (NodeList.ofList ns)

def Node.tagName : Node → Option String
  | .elem t _ _ => some t
  | .text _ => none

/-- Attribute lookup (`'name' in tag.attrs` / `tag['name']`). -/
def Node.attr (n : Node) (name : String) : Option String :=
  match n with
  | .elem _ attrs _ => (attrs.find? (fun kv => decide (kv.1 = name))).map (·.2)
  | .text _ => none

/-- BeautifulSoup splits the `class` attribute value on whitespace into a
token list. -/
def Node.classes (n : Node) : List String :=
  match n.attr "class" with
  | some v => (wordsOf v.data).map (fun l => ⟨l⟩)
  | none => []

mutual
/-- All descendants of a node (excluding the node itself), in document
order — the search space of `soup.select`, `find` and `find_all`. -/
def Node.descend : Node → List Node
  | .text _ => []
  | .elem _ _ cs => NodeList.descendList cs
def NodeList.descendList : NodeList → List Node
  | .nil => []
  | .cons n ns => n :: (Node.descend n ++ NodeList.descendList ns)
end

mutual
/-- Descendants paired with their ancestor chain (nearest parent first,
ending at the tree root) — supports BeautifulSoup's `.parent`. -/
def Node.descendLocs : Node → List Node → List (Node × List Node)
  | .text _, _ => []
  | .elem t a cs, anc => NodeList.descendLocsList cs (Node.elem t a cs :: anc)
def NodeList.descendLocsList : NodeList → List Node → List (Node × List Node)
  | .nil, _ => []
  | .cons n ns, anc =>
      (n, anc) :: (Node.descendLocs n anc ++ NodeList.descendLocsList ns anc)
end

mutual
/-- The character content of `get_text(strip=True)`: every descendant text
string stripped, concatenated in document order. -/
def Node.textChars : Node → List Char
  | .text s => stripChars s.data
  | .elem _ _ cs => NodeList.textCharsList cs
def NodeList.textCharsList : NodeList → List Char
  | .nil => []
  | .cons n ns => Node.textChars n ++ NodeList.textCharsList ns
end

/-- `tag.get_text(strip=True)`. -/
def getTextStrip (n : Node) : String := ⟨Node.textChars n⟩

/-! ### CSS selector primitives (hand-compiled from the selector strings) -/

/-- CSS tag selector (`h2`, `a`, `p`, ...). -/
def selTag (t : String) (n : Node) : Bool := n.tagName = some t

/-- CSS class selector (`.eventCard`): the token occurs in the class list. -/
def selClass (c : String) (n : Node) : Bool := n.classes.contains c

/-- CSS attribute substring selector on the raw class value
(`[class*="sub"]`), case-insensitive when the `i` flag is present. -/
def selClassSub (sub : String) (ci : Bool) (n : Node) : Bool :=
  match n.attr "class" with
  | some v =>
      if ci then containsSub (lowerChars v.data) (lowerChars sub.data)
      else containsSub v.data sub.data
  | none => false

/-- `root.select(...)` — all matching descendants in document order. -/
def selectAll (root : Node) (p : Node → Bool) : List Node :=
  (Node.descend root).filter p

/-- `root.select_one(...)`. -/
def selectOne (root : Node) (p : Node → Bool) : Option Node :=
  (selectAll root p).head?

/-- `root.find('t')`. -/
def findTag (root : Node) (t : String) : Option Node :=
  selectOne root (selTag t)

/-- `root.find_all(['t1', 't2', ...])`. -/
def findTags (root : Node) (ts : List String) : List Node :=
  selectAll root (fun n => ts.any (fun t => decide (n.tagName = some t)))

/-- `root.find(['t1', 't2', ...])`. -/
def findTagFirst (root : Node) (ts : List String) : Option Node :=
  (findTags root ts).head?

/-- `find_all(..., class_=True)`: the tag carries a truthy class attribute. -/
def hasClassAttr (n : Node) : Bool := !(n.classes.isEmpty)

/-! ## Bridge Theatre extractor
(`src/scraper_static.py`, `extract_bridge_shows`, lines 413-520; the code
after the unconditional `return shows` on line 520 is unreachable and not
modelled) -/

/-- Relative-URL resolution against the Bridge origin (lines 452-456). -/
def bridgeAbsUrl (u : String) : String :=
  if u = "" then u
  else if startsWithChars u.data "http".data then u
  else if startsWithChars u.data "/".data then "https://bridgetheatre.co.uk" ++ u
  else "https://bridgetheatre.co.uk/" ++ u

/-- `title.lower().replace(' ', '-')` (line 460). -/
def slugify (s : String) : String :=
  ⟨(lowerChars s.data).map (fun c => if c = ' ' then '-' else c)⟩

/-- The parent walk of lines 441-449: up to three ancestors, `find('a')` on
each; a `None` parent (walking past the root) just burns iterations. -/
def bridgeFindLinkUp : List Node → Nat → Option Node
  | _, 0 => none
  | [], _ + 1 => none
  | p :: rest, k + 1 =>
      match findTag p "a" with
      | some l => some l
      | none => bridgeFindLinkUp rest k

/-- The chrome keywords of the heading fallbacks (line 499 and analogues). -/
def chromeWords : List String := ["menu", "navigation", "home", "about", "contact"]

/-- The heading filter `text and len(text) > 3 and not any(x in text.lower()
for x in [...])`. -/
def headingTitleOk (t : String) : Bool :=
  decide (t ≠ "") && decide (3 < t.length) &&
  !(chromeWords.any (fun w => containsSub (lowerChars t.data) w.data))

/-- One show from a `.global-header__nav-heading` element (lines 435-472). -/
def bridgeNavShow (theater_id : String) (loc : Node × List Node) : TheaterShow :=
  let title := getTextStrip loc.1
  let show_url :=
    match bridgeFindLinkUp loc.2 3 with
    | some l => (l.attr "href").getD ""
    | none => ""
  let show_url := bridgeAbsUrl show_url
  let show_url :=
    if show_url = "" then
      "https://bridgetheatre.co.uk/performances/" ++ slugify title ++ "/"
    else show_url
  { title := title, venue := "Bridge Theatre", url := show_url,
    theater_id := theater_id }

/-- The hard-coded record fabricated when nothing at all is found
(lines 509-518, logged as "Creating mock show for testing"). -/
def bridgeMockShow (theater_id : String) : TheaterShow :=
  { title := "Richard II", venue := "Bridge Theatre",
    url := "https://bridgetheatre.co.uk/performances/richard-ii/",
    theater_id := theater_id }

/-- `extract_bridge_shows(soup, theater_id, url)` (lines 413-520).  Note
that the container candidates found on lines 483-487 are never iterated in
the source — only their emptiness gates the heading fallback — and that an
empty result is replaced by the mock record. -/
def extract_bridge_shows (soup : Node) (theater_id url : String) :
    List TheaterShow :=
  let title_locs := (Node.descendLocs soup []).filter
    (fun loc => selClass "global-header__nav-heading" loc.1)
  let shows := title_locs.map (bridgeNavShow theater_id)
  if !shows.isEmpty then shows
  else
    let show_elements := selectAll soup (fun n =>
      selClass "performance" n || selClass "production" n ||
      selClass "event-card" n || selClass "show-item" n)
    let show_elements :=
      if show_elements.isEmpty then
        selectAll soup (fun n =>
          selClassSub "performance" false n || selClassSub "production" false n ||
          selClassSub "event" false n || selClassSub "show" false n)
      else show_elements
    let headingShows :=
      if show_elements.isEmpty then
        (findTags soup ["h1", "h2", "h3", "h4", "h5", "h6"]).filterMap (fun h =>
          let t := getTextStrip h
          if headingTitleOk t then
            some { title := t, venue := "Bridge Theatre", url := url,
                   theater_id := theater_id }
          else none)
      else []
    if !headingShows.isEmpty then headingShows
    else [bridgeMockShow theater_id]

/-- A page with no show containers, no matching classes and no headings:
every selector and every fallback of the Bridge extractor yields nothing. -/
def bridgeEmptyDoc : Node :=
  .elem "html" [] (NodeList.ofList
    [.elem "body" [] (NodeList.ofList
      [.elem "p" [] (NodeList.ofList [.text "Nothing on this week"])])])

/-- **C3 (code bug).** On a document where the primary selectors and every
fallback yield nothing, `extract_bridge_shows` does *not* return the empty
sequence: it fabricates the hard-coded "Richard II" mock record (source
lines 509-518, self-described as "Creating mock show for testing"),
contradicting the spec's contract that only records originating from the
document are emitted and that an exhausted fallback chain produces zero
shows. -/
theorem bridge_fabricates_mock_show :
    extract_bridge_shows bridgeEmptyDoc "bridge" "https://bridgetheatre.co.uk/" =
      [bridgeMockShow "bridge"] ∧
    (bridgeMockShow "bridge").title = "Richard II" := by
  constructor
  · rfl
  · rfl

/-! ## Donmar Warehouse extractor
(`src/scraper_static.py`, `extract_donmar_shows`, lines 163-279) -/

/-- A hyphen or en-dash, the split characters of `re.split(r'\s*[-–]\s*', …)`. -/
def isDashChar (c : Char) : Bool := c = '-' || c = '–'

/-- `re.split(r'\s*[-–]\s*', s)` (line 227): split at every dash, absorbing
the whitespace around it (`acc` holds the current piece reversed;
`afterDash` skips the whitespace that follows a dash). -/
def splitDashAux : List Char → List Char → Bool → List (List Char)
  | [], acc, _ => [acc.reverse]
  | c :: cs, acc, afterDash =>
      if afterDash && isSpaceChar c then splitDashAux cs acc true
      else if isDashChar c then
        (acc.dropWhile isSpaceChar).reverse :: splitDashAux cs [] true
      else splitDashAux cs (c :: acc) false

def splitDashRegex (l : List Char) : List (List Char) := splitDashAux l [] false

/-- The twelve three-letter month tokens of the regexes on lines 235-237. -/
def month3 : List String :=
  ["jan", "feb", "mar", "apr", "may", "jun", "jul", "aug", "sep", "oct",
   "nov", "dec"]

/-- One attempted match of `\b(Jan|…|Dec)\b` (case-insensitive) at the
current position. -/
def monthTokenAt (prev : Option Char) (l : List Char) : Bool :=
  if (match prev with | none => false | some p => isWordChar p) then false
  else match l with
  | c1 :: c2 :: c3 :: rest =>
      month3.any (fun name => decide (lowerChars [c1, c2, c3] = name.data)) &&
      (match rest with | [] => true | r :: _ => !isWordChar r)
  | _ => false

/-- `re.search(r'\b(Jan|…|Dec)\b', s, re.IGNORECASE)` as a Boolean
(line 235). -/
def monthTokenFound : Option Char → List Char → Bool
  | _, [] => false
  | prev, c :: cs => monthTokenAt prev (c :: cs) || monthTokenFound (some c) cs

/-- One attempted match of `\b(Jan|…|Dec)(\s+\d{4})?\b` (case-insensitive),
returning `group(0)` — greedy on the optional year, with backtracking to
the bare month name (line 237). -/
def monthYearAt (prev : Option Char) (l : List Char) : Option (List Char) :=
  if (match prev with | none => false | some p => isWordChar p) then none
  else match l with
  | c1 :: c2 :: c3 :: rest =>
      if month3.any (fun name => decide (lowerChars [c1, c2, c3] = name.data)) then
        let sp := rest.takeWhile isSpaceChar
        let afterSp := rest.dropWhile isSpaceChar
        let withYear : Option (List Char) :=
          if sp.isEmpty then none
          else match afterSp with
            | d1 :: d2 :: d3 :: d4 :: r3 =>
                if isDigitChar d1 && isDigitChar d2 && isDigitChar d3 &&
                   isDigitChar d4 &&
                   (match r3 with | [] => true | x :: _ => !isWordChar x) then
                  some ([c1, c2, c3] ++ sp ++ [d1, d2, d3, d4])
                else none
            | _ => none
        match withYear with
        | some g => some g
        | none =>
            if (match rest with | [] => true | r :: _ => !isWordChar r) then
              some [c1, c2, c3]
            else none
      else none
  | _ => none

/-- `re.search(r'\b(Jan|…|Dec)(\s+\d{4})?\b', s, re.IGNORECASE)` — the
leftmost match's `group(0)`. -/
def monthYearSearch : Option Char → List Char → Option (List Char)
  | _, [] => none
  | prev, c :: cs =>
      match monthYearAt prev (c :: cs) with
      | some g => some g
      | none => monthYearSearch (some c) cs

/-- Relative-URL resolution against the Donmar origin (lines 207-212). -/
def donmarAbsUrl (u : String) : String :=
  if u = "" then u
  else if startsWithChars u.data "http".data then u
  else if startsWithChars u.data "/".data then
    "https://www.donmarwarehouse.com" ++ u
  else "https://www.donmarwarehouse.com/" ++ u

/-- The date-range handling of lines 219-245: normalise whitespace, split on
dashes; on a two-part split, propagate an abbreviated month (and optional
year) from the first part to a month-less second part, then parse both
halves; otherwise parse the whole text as a single date. -/
def donmarDates (strictParse fuzzyParse : String → Option Date)
    (date_range : String) : Option Date × Option Date :=
  if date_range = "" then (none, none)
  else
    let dr := normalizeWs date_range
    let parts := splitDashRegex dr.data
    if parts.length = 2 then
      let start_str := stripChars (parts.getD 0 [])
      let end_str := stripChars (parts.getD 1 [])
      let end_str :=
        if monthTokenFound none start_str && !(monthTokenFound none end_str) then
          match monthYearSearch none start_str with
          | some g => end_str ++ ' ' :: g
          | none => end_str
        else end_str
      (parse_date_string strictParse fuzzyParse (some ⟨start_str⟩),
       parse_date_string strictParse fuzzyParse (some ⟨end_str⟩))
    else
      (parse_date_string strictParse fuzzyParse (some dr), none)

/-- The container candidates: `soup.select('li.eventCard')` (line 179). -/
def donmarContainers (soup : Node) : List Node :=
  selectAll soup (fun n => selTag "li" n && selClass "eventCard" n)

/-- The title search of lines 186-199: `h2, h3, .eventCard__title`, then
`[class*="title" i]`, then `find(['h1','h2','h3','h4'])`. -/
def donmarTitleElem (show_elem : Node) : Option Node :=
  match selectOne show_elem (fun n =>
      selTag "h2" n || selTag "h3" n || selClass "eventCard__title" n) with
  | some e => some e
  | none =>
      match selectOne show_elem (selClassSub "title" true) with
      | some e => some e
      | none => findTagFirst show_elem ["h1", "h2", "h3", "h4"]

/-- One iteration of the container loop (lines 183-276); `none` models the
`continue` taken when no title element is found. -/
def donmarShowOfElem (strictParse fuzzyParse : String → Option Date)
    (theater_id : String) (show_elem : Node) : Option TheaterShow :=
  match donmarTitleElem show_elem with
  | none => none
  | some title_elem =>
      let title := getTextStrip title_elem
      let link_elem :=
        match selectOne show_elem (selTag "a") with
        | some l => some l
        | none => findTag title_elem "a"
      let show_url :=
        match link_elem with
        | some l => (l.attr "href").getD ""
        | none => ""
      let show_url := donmarAbsUrl show_url
      let date_elem := selectOne show_elem (fun n =>
        selClass "eventCard__mainDate" n || selClass "eventCard__dates" n ||
        selClassSub "date" true n)
      let date_range := match date_elem with
        | some e => getTextStrip e
        | none => ""
      let dates := donmarDates strictParse fuzzyParse date_range
      let desc_elem := selectOne show_elem (fun n =>
        selClass "eventCard__description" n || selClass "eventCard__snippet" n ||
        selClassSub "description" true n || selClassSub "snippet" true n ||
        selTag "p" n)
      let description : Option String :=
        match desc_elem with
        | none => none
        | some e =>
            let t := getTextStrip e
            if t ≠ "" && t.length < 10 then none else some t
      let price_elem := selectOne show_elem (fun n =>
        selClass "eventCard__price" n || selClassSub "price" true n ||
        selClassSub "ticket" true n)
      let price_range : Option String :=
        match price_elem with
        | none => none
        | some e => some (getTextStrip e)
      some { title := title, venue := "Donmar Warehouse", url := show_url,
             performance_start_date := dates.1,
             performance_end_date := dates.2,
             description := description, price_range := price_range,
             theater_id := theater_id }

/-- `extract_donmar_shows(soup, theater_id, url)` (lines 163-279). -/
def extract_donmar_shows (strictParse fuzzyParse : String → Option Date)
    (soup : Node) (theater_id _url : String) : List TheaterShow :=
  (donmarContainers soup).filterMap
    (donmarShowOfElem strictParse fuzzyParse theater_id)

/-! ## Hampstead Theatre extractor
(`src/scraper_static.py`, `extract_hampstead_shows`, lines 611-747) -/

/-- Python `s.split(sep)` for a non-empty separator: split at every
non-overlapping occurrence, left to right. -/
def splitOnSubAux (sep : List Char) (hs : sep ≠ []) :
    List Char → List Char → List (List Char)
  | [], acc => [acc.reverse]
  | c :: cs, acc =>
      if startsWithChars (c :: cs) sep then
        acc.reverse :: splitOnSubAux sep hs ((c :: cs).drop sep.length) []
      else splitOnSubAux sep hs cs (c :: acc)
termination_by l => l.length
decreasing_by
  · simp only [List.length_drop, List.length_cons]
    have : 1 ≤ sep.length := List.length_pos.mpr hs
    omega
  · simp only [List.length_cons]
    omega

def splitOnSub (l sep : List Char) : List (List Char) :=
  if h : sep = [] then [l] else splitOnSubAux sep h l []

/-- Python `s.replace(sub, '')` for a non-empty `sub`: delete every
non-overlapping occurrence, left to right. -/
def removeAll (l sub : List Char) : List Char :=
  if hs : sub = [] then l
  else match l with
    | [] => []
    | c :: cs =>
        if startsWithChars (c :: cs) sub then
          removeAll ((c :: cs).drop sub.length) sub
        else c :: removeAll cs sub
termination_by l.length
decreasing_by
  · simp only [List.length_drop, List.length_cons]
    have : 1 ≤ sub.length := List.length_pos.mpr hs
    omega
  · simp only [List.length_cons]
    omega

/-- `re.search(r'\d{4}', s)` — the leftmost run of four consecutive digit
characters (no word boundaries), as matched text. -/
def find4digits : List Char → Option (List Char)
  | [] => none
  | c :: cs =>
      match cs with
      | d2 :: d3 :: d4 :: _ =>
          if isDigitChar c && isDigitChar d2 && isDigitChar d3 &&
             isDigitChar d4 then
            some [c, d2, d3, d4]
          else find4digits cs
      | _ => none

/-- The separators tried in order by the range loop (line 681). -/
def hampsteadSeps : List String := [" - ", " to ", "–", "-"]

/-- The year propagation of lines 686-691: if the first part has a 4-digit
year and the second does not, and the second does not already contain that
year, append it to the second part. -/
def hampsteadYearProp (p0 p1 : List Char) : List Char :=
  if (find4digits p0).isSome && !(find4digits p1).isSome then
    match find4digits p0 with
    | some y => if !(containsSub p1 y) then p1 ++ ' ' :: y else p1
    | none => p1
  else p1

/-- The separator loop of lines 681-695: first separator that occurs and
splits the text into exactly two parts wins; a separator that occurs but
yields a different part count falls through to the next separator. -/
def hampsteadTrySeps (strictParse fuzzyParse : String → Option Date)
    (dr : List Char) : List String → Option Date × Option Date
  | [] => (none, none)
  | sep :: rest =>
      if containsSub dr sep.data then
        let parts := splitOnSub dr sep.data
        if parts.length = 2 then
          let p0 := parts.getD 0 []
          let p1 := hampsteadYearProp p0 (parts.getD 1 [])
          (parse_date_string strictParse fuzzyParse (some ⟨p0⟩),
           parse_date_string strictParse fuzzyParse (some ⟨p1⟩))
        else hampsteadTrySeps strictParse fuzzyParse dr rest
      else hampsteadTrySeps strictParse fuzzyParse dr rest

/-- The date handling of lines 673-702: try the separators; if neither a
start nor an end date came out, fall back to the `from`/`until`/`till`
keyword forms on the lowercased text. -/
def hampsteadDates (strictParse fuzzyParse : String → Option Date)
    (date_range : String) : Option Date × Option Date :=
  if date_range = "" then (none, none)
  else
    let dr := normalizeWs date_range
    let se := hampsteadTrySeps strictParse fuzzyParse dr.data hampsteadSeps
    if se.1.isNone && se.2.isNone then
      let low := lowerChars dr.data
      if containsSub low "from".data then
        (parse_date_string strictParse fuzzyParse
          (some ⟨stripChars (removeAll low "from".data)⟩), none)
      else if containsSub low "until".data || containsSub low "till".data then
        (none, parse_date_string strictParse fuzzyParse
          (some ⟨stripChars (removeAll (removeAll low "until".data)
            "till".data)⟩))
      else (none, none)
    else se

/-- The container discovery of lines 627-638: precise class selectors, then
case-sensitive class-substring selectors, then items with a class attribute
inside grid containers. -/
def hampsteadContainers (soup : Node) : List Node :=
  let se1 := selectAll soup (fun n =>
    selClass "production" n || selClass "production-item" n ||
    selClass "show-item" n || selClass "event-item" n || selClass "grid-item" n)
  let se2 :=
    if se1.isEmpty then
      selectAll soup (fun n =>
        selClassSub "production" false n || selClassSub "show" false n ||
        selClassSub "event" false n)
    else se1
  if se2.isEmpty then
    (selectAll soup (fun n =>
      selClass "productions-grid" n || selClass "shows-grid" n ||
      selClass "events-list" n || selClass "whats-on-grid" n)).flatMap
      (fun grid => selectAll grid (fun n =>
        (decide (n.tagName = some "li") || decide (n.tagName = some "article") ||
         decide (n.tagName = some "div")) && hasClassAttr n))
  else se2

/-- The title search of lines 645-656: heading/class-substring selector,
then the first `strong`/`b`/`a` descendant with text longer than three
characters. -/
def hampsteadTitleElem (show_elem : Node) : Option Node :=
  match selectOne show_elem (fun n =>
      selTag "h1" n || selTag "h2" n || selTag "h3" n || selTag "h4" n ||
      selTag "h5" n || selClassSub "title" false n) with
  | some e => some e
  | none =>
      (findTags show_elem ["strong", "b", "a"]).find? (fun e =>
        let t := getTextStrip e
        decide (t ≠ "") && decide (3 < t.length))

/-- One iteration of the container loop (lines 642-728). -/
def hampsteadShowOfElem (strictParse fuzzyParse : String → Option Date)
    (theater_id : String) (show_elem : Node) : Option TheaterShow :=
  match hampsteadTitleElem show_elem with
  | none => none
  | some title_elem =>
      let title := getTextStrip title_elem
      let link_elem :=
        match findTag title_elem "a" with
        | some l => some l
        | none => findTag show_elem "a"
      let show_url :=
        match link_elem with
        | some l => (l.attr "href").getD ""
        | none => ""
      let show_url :=
        if show_url = "" then show_url
        else if startsWithChars show_url.data "http".data then show_url
        else if startsWithChars show_url.data "/".data then
          "https://www.hampsteadtheatre.com" ++ show_url
        else "https://www.hampsteadtheatre.com/" ++ show_url
      let date_elem := selectOne show_elem (fun n =>
        selClassSub "date" false n || selClassSub "time" false n ||
        selClassSub "when" false n || selClassSub "period" false n)
      let date_range := match date_elem with
        | some e => getTextStrip e
        | none => ""
      let dates := hampsteadDates strictParse fuzzyParse date_range
      let desc_elem := selectOne show_elem (fun n =>
        selClassSub "description" false n || selClassSub "summary" false n ||
        selClassSub "synopsis" false n || selClassSub "excerpt" false n ||
        selClassSub "content" false n)
      let description : Option String :=
        match desc_elem with
        | none => none
        | some e => some (getTextStrip e)
      let price_elem := selectOne show_elem (fun n =>
        selClassSub "price" false n || selClassSub "cost" false n ||
        selClassSub "ticket" false n)
      let price_range : Option String :=
        match price_elem with
        | none => none
        | some e => some (getTextStrip e)
      some { title := title, venue := "Hampstead Theatre", url := show_url,
             performance_start_date := dates.1,
             performance_end_date := dates.2,
             description := description, price_range := price_range,
             theater_id := theater_id }

/-- The heading fallback of lines 731-744. -/
def hampsteadHeadingShows (soup : Node) (theater_id url : String) :
    List TheaterShow :=
  (findTags soup ["h1", "h2", "h3", "h4", "h5"]).filterMap (fun h =>
    let t := getTextStrip h
    if headingTitleOk t then
      some { title := t, venue := "Hampstead Theatre", url := url,
             theater_id := theater_id }
    else none)

/-- `extract_hampstead_shows(soup, theater_id, url)` (lines 611-747). -/
def extract_hampstead_shows (strictParse fuzzyParse : String → Option Date)
    (soup : Node) (theater_id url : String) : List TheaterShow :=
  let shows := (hampsteadContainers soup).filterMap
    (hampsteadShowOfElem strictParse fuzzyParse theater_id)
  if shows.isEmpty then hampsteadHeadingShows soup theater_id url
  else shows

/-! ### Titles of extracted records (C4) -/

/-- A Donmar page whose event card's heading element exists but holds no
text at all. -/
def donmarEmptyTitleDoc : Node :=
  .elem "body" [] (NodeList.ofList
    [.elem "li" [("class", "eventCard")] (NodeList.ofList
      [.elem "h2" [] NodeList.nil])])

/-- **C4 counterexample.** The Donmar extractor only skips a container when
no title *element* is found; a located heading with empty text produces a
record whose title is the empty string, refuting the claim that every
returned record has a non-empty title. -/
theorem donmar_emits_empty_title :
    ∃ r ∈ extract_donmar_shows (fun _ => none) (fun _ => none)
      donmarEmptyTitleDoc "donmar" "https://www.donmarwarehouse.com/whats-on",
      r.title = "" := by
  decide

/-- **C4 (amended).** Every record returned by the Donmar extractor comes
from a container in which a title element was located, with the record's
title equal to that element's stripped text — which may be the empty
string — and containers with no locatable title element are skipped.  Every
record returned by the Hampstead extractor likewise takes its title from a
located title element of its container, or (heading fallback) from a page
heading whose text is longer than three characters. -/
theorem extractor_titles_from_located_elements
    (strictParse fuzzyParse : String → Option Date) (soup : Node)
    (theater_id url : String) :
    (∀ r ∈ extract_donmar_shows strictParse fuzzyParse soup theater_id url,
      ∃ c ∈ donmarContainers soup, ∃ t, donmarTitleElem c = some t ∧
        r.title = getTextStrip t) ∧
    (∀ r ∈ extract_hampstead_shows strictParse fuzzyParse soup theater_id url,
      (∃ c ∈ hampsteadContainers soup, ∃ t, hampsteadTitleElem c = some t ∧
        r.title = getTextStrip t) ∨
      (∃ h ∈ Node.descend soup, r.title = getTextStrip h ∧
        3 < r.title.length)) := by
  constructor
  · intro r hr
    unfold extract_donmar_shows at hr
    rcases List.mem_filterMap.mp hr with ⟨c, hc, hf⟩
    refine ⟨c, hc, ?_⟩
    unfold donmarShowOfElem at hf
    cases ht : donmarTitleElem c with
    | none => rw [ht] at hf; cases hf
    | some t =>
        rw [ht] at hf
        dsimp only at hf
        refine ⟨t, rfl, ?_⟩
        rw [← Option.some.inj hf]
  · intro r hr
    unfold extract_hampstead_shows at hr
    dsimp only at hr
    by_cases hempty : ((hampsteadContainers soup).filterMap
        (hampsteadShowOfElem strictParse fuzzyParse theater_id)).isEmpty
    · rw [if_pos hempty] at hr
      right
      unfold hampsteadHeadingShows at hr
      rcases List.mem_filterMap.mp hr with ⟨h, hh, hf⟩
      have hmem : h ∈ Node.descend soup := by
        unfold findTags selectAll at hh
        exact (List.mem_filter.mp hh).1
      by_cases hok : headingTitleOk (getTextStrip h) = true
      · rw [if_pos hok] at hf
        have hrr := Option.some.inj hf
        refine ⟨h, hmem, ?_, ?_⟩
        · rw [← hrr]
        · have hlen : decide (3 < (getTextStrip h).length) = true := by
            unfold headingTitleOk at hok
            simp only [Bool.and_eq_true] at hok
            exact hok.1.2
          rw [← hrr]
          simpa using hlen
      · rw [if_neg hok] at hf
        cases hf
    · rw [if_neg hempty] at hr
      left
      rcases List.mem_filterMap.mp hr with ⟨c, hc, hf⟩
      refine ⟨c, hc, ?_⟩
      unfold hampsteadShowOfElem at hf
      cases ht : hampsteadTitleElem c with
      | none => rw [ht] at hf; cases hf
      | some t =>
          rw [ht] at hf
          dsimp only at hf
          refine ⟨t, rfl, ?_⟩
          rw [← Option.some.inj hf]

/-- A Donmar page with one event card titled "Macbeth". -/
def donmarTitledDoc : Node :=
  .elem "body" [] (NodeList.ofList
    [.elem "li" [("class", "eventCard")] (NodeList.ofList
      [.elem "h2" [] (NodeList.ofList [.text " Macbeth "])])])

def macbethShow : TheaterShow :=
  { title := "Macbeth", venue := "Donmar Warehouse", url := "",
    theater_id := "donmar" }

theorem extractor_titles_from_located_elements_witness :
    ∃ c ∈ donmarContainers donmarTitledDoc, ∃ t,
      donmarTitleElem c = some t ∧ macbethShow.title = getTextStrip t :=
  (extractor_titles_from_located_elements (fun _ => none) (fun _ => none)
    donmarTitledDoc "donmar" "https://www.donmarwarehouse.com/whats-on").1
    macbethShow (by decide)

/-! ## Extraction dispatcher
(`src/scraper_static.py`, `THEATER_PARSERS` lines 1710-1721 and
`parse_theater_page` lines 1723-1747).  The seven extractors not modelled in
this development (`national`, `marylebone`, `soho_dean`, `soho_walthamstow`,
`rsc`, `royal_court`, `drury_lane`) enter as opaque parameters — the
dispatcher's behaviour on an empty page or an unknown site identifier never
reaches them. -/

abbrev Extractor := Node → String → String → List TheaterShow

/-- `extract_show_details` (lines 145-161): the no-op generic parser used
for unknown site identifiers. -/
def extract_show_details : Extractor := fun _ _ _ => []

/-- The `THEATER_PARSERS` registry (lines 1710-1721), in source order. -/
def THEATER_PARSERS (strictParse fuzzyParse : String → Option Date)
    (eNational eMarylebone eSohoDean eSohoWalthamstow eRsc eRoyalCourt
     eDruryLane : Extractor) : List (String × Extractor) :=
  [("donmar", extract_donmar_shows strictParse fuzzyParse),
   ("national", eNational),
   ("bridge", extract_bridge_shows),
   ("hampstead", extract_hampstead_shows strictParse fuzzyParse),
   ("marylebone", eMarylebone),
   ("soho_dean", eSohoDean),
   ("soho_walthamstow", eSohoWalthamstow),
   ("rsc", eRsc),
   ("royal_court", eRoyalCourt),
   ("drury_lane", eDruryLane)]

/-- The ten registered theater identifiers. -/
def registeredTheaterIds : List String :=
  ["donmar", "national", "bridge", "hampstead", "marylebone", "soho_dean",
   "soho_walthamstow", "rsc", "royal_court", "drury_lane"]

/-- `parse_theater_page(html_content, theater_id, url)` (lines 1723-1747).
`parseHtml` models `BeautifulSoup(html_content, 'lxml')`;
`THEATER_PARSERS.get(theater_id, extract_show_details)` is the registry
lookup with the no-op default. -/
def parse_theater_page (strictParse fuzzyParse : String → Option Date)
    (parseHtml : String → Node)
    (eNational eMarylebone eSohoDean eSohoWalthamstow eRsc eRoyalCourt
     eDruryLane : Extractor)
    (html_content theater_id url : String) : List TheaterShow :=
  if html_content = "" then []
  else
    let soup := parseHtml html_content
    let parser_func :=
      (((THEATER_PARSERS strictParse fuzzyParse eNational eMarylebone
            eSohoDean eSohoWalthamstow eRsc eRoyalCourt eDruryLane).find?
          (fun kv => decide (kv.1 = theater_id))).map (·.2)).getD
        extract_show_details
    parser_func soup theater_id url

/-- **C9.** `parse_theater_page` returns the empty sequence (and cannot
throw — it is a total function) whenever the HTML string is empty, and
whenever the site identifier is not one of the ten registered theater
identifiers, in which case the lookup falls back to the no-op
`extract_show_details`. -/
theorem parse_theater_page_safe (strictParse fuzzyParse : String → Option Date)
    (parseHtml : String → Node)
    (eNational eMarylebone eSohoDean eSohoWalthamstow eRsc eRoyalCourt
     eDruryLane : Extractor)
    (html_content theater_id url : String) :
    (html_content = "" →
      parse_theater_page strictParse fuzzyParse parseHtml eNational
        eMarylebone eSohoDean eSohoWalthamstow eRsc eRoyalCourt eDruryLane
        html_content theater_id url = []) ∧
    (theater_id ∉ registeredTheaterIds →
      parse_theater_page strictParse fuzzyParse parseHtml eNational
        eMarylebone eSohoDean eSohoWalthamstow eRsc eRoyalCourt eDruryLane
        html_content theater_id url = []) := by
  constructor
  · intro h
    unfold parse_theater_page
    rw [if_pos h]
  · intro h
    unfold parse_theater_page
    by_cases hh : html_content = ""
    · rw [if_pos hh]
    · rw [if_neg hh]
      have hfind : (THEATER_PARSERS strictParse fuzzyParse eNational
          eMarylebone eSohoDean eSohoWalthamstow eRsc eRoyalCourt
          eDruryLane).find? (fun kv => decide (kv.1 = theater_id)) = none := by
        apply List.find?_eq_none.mpr
        intro kv hkv
        simp only [decide_eq_true_eq]
        intro heq
        apply h
        unfold THEATER_PARSERS at hkv
        simp only [List.mem_cons, List.not_mem_nil, or_false] at hkv
        unfold registeredTheaterIds
        rcases hkv with rfl | rfl | rfl | rfl | rfl | rfl | rfl | rfl | rfl | rfl
        all_goals (rw [← heq]; simp)
      simp only [hfind, Option.map_none', Option.getD_none]
      rfl

theorem parse_theater_page_safe_witness :
    parse_theater_page (fun _ => none) (fun _ => none) (fun _ => Node.text "")
      (fun _ _ _ => []) (fun _ _ _ => []) (fun _ _ _ => []) (fun _ _ _ => [])
      (fun _ _ _ => []) (fun _ _ _ => []) (fun _ _ _ => [])
      "" "donmar" "https://example.com" = [] ∧
    parse_theater_page (fun _ => none) (fun _ => none) (fun _ => Node.text "")
      (fun _ _ _ => []) (fun _ _ _ => []) (fun _ _ _ => []) (fun _ _ _ => [])
      (fun _ _ _ => []) (fun _ _ _ => []) (fun _ _ _ => [])
      "<html></html>" "nonexistent_site" "https://example.com" = [] :=
  ⟨(parse_theater_page_safe (fun _ => none) (fun _ => none)
      (fun _ => Node.text "") (fun _ _ _ => []) (fun _ _ _ => [])
      (fun _ _ _ => []) (fun _ _ _ => []) (fun _ _ _ => []) (fun _ _ _ => [])
      (fun _ _ _ => []) "" "donmar" "https://example.com").1 rfl,
   (parse_theater_page_safe (fun _ => none) (fun _ => none)
      (fun _ => Node.text "") (fun _ _ _ => []) (fun _ _ _ => [])
      (fun _ _ _ => []) (fun _ _ _ => []) (fun _ _ _ => []) (fun _ _ _ => [])
      (fun _ _ _ => []) "<html></html>" "nonexistent_site"
      "https://example.com").2 (by decide)⟩

end TheatreScraper
